import Mathlib

/-!
The program grpc_cli: schema index, method resolver and interactive session

A shallow embedding of the Go sources `proto/proto.go`, `client/client.go`,
`cli/cli.go` and `config/config.go`, and the properties proved about them.

Go strings are modelled as lists of characters.  The two separators the
program splits and joins on (`"."` and `" "`) are one-character strings, so
`strings.Split` is embedded for a one-character separator.
-/

namespace GrpcCli

/-- Go `string`, as the list of its characters. -/
abbrev Str := List Char

/-! ## Library functions used by the sources -/

/-- Go `strings.Split(s, sep)` for a one-character separator: the pieces of `s`
between consecutive occurrences of `sep`; a string without `sep` (the empty
string included) gives the one-element list holding it. -/
def Split : Str → Char → List Str
  | [], _ => [[]]
  | c :: cs, sep =>
    if c = sep then [] :: Split cs sep
    else
      match Split cs sep with
      | [] => [[c]]
      | seg :: segs => (c :: seg) :: segs

/-- Go `strings.Join(elems, sep)`. -/
def Join : List Str → Str → Str
  | [], _ => []
  | [a], _ => a
  | a :: b :: rest, sep => a ++ sep ++ Join (b :: rest) sep

/-! ## Errors -/

/-- Error values of the program: the five sentinel errors of `proto/proto.go`,
the error built in `fullQualifiedRPCNameToMethod`, `errors.Wrap`, and errors
coming from the libraries the program calls. -/
inductive Err where
  | ErrServiceIsEmpty
  | ErrPackageIsEmpty
  | ErrPackageUnknown
  | ErrServiceUnknown
  | ErrRPCUnknown
  | invalidFullQualifiedRPCName
  | wrap (cause : Err) (msg : Str)
  | external (msg : Str)
  deriving DecidableEq, Repr

deriving instance DecidableEq for Except

/-- The text of an error, Go `err.Error()`. -/
def Err.Error : Err → Str
  | .ErrServiceIsEmpty => "service is an empty string".toList
  | .ErrPackageIsEmpty => "package is an empty string".toList
  | .ErrPackageUnknown => "unknown package name".toList
  | .ErrServiceUnknown => "unknown service name".toList
  | .ErrRPCUnknown => "unknown RPC name".toList
  | .invalidFullQualifiedRPCName => "invalid FullQualifiedRPCName format".toList
  | .wrap cause msg => msg ++ ": ".toList ++ cause.Error
  | .external msg => msg

/-! ## client/client.go: the method resolver -/

/-- The constant `rpcNameDelimiter = "."` of `client/client.go`. -/
def rpcNameDelimiter : Char := '.'

/-- The function `fullQualifiedRPCNameToMethod` of `client/client.go`. -/
def fullQualifiedRPCNameToMethod (name : Str) : Except Err Str :=
  let spName := Split name rpcNameDelimiter
  if spName.length < 3 then
    .error Err.invalidFullQualifiedRPCName
  else
    .ok ('/' :: Join (spName.take (spName.length - 1)) [rpcNameDelimiter]
      ++ '/' :: spName.getD (spName.length - 1) [])

/-! ## Go maps -/

/-- Go `map[string]V`: the entries as a list of key and value.  A lookup takes
the first entry of the key; an assignment leaves exactly one entry of the key.
Go leaves the iteration order of a map unspecified; the list order stands for
one such order. -/
structure GoMap (V : Type) where
  entries : List (Str × V)
  deriving DecidableEq, Repr

/-- The empty map, Go `make(map[string]V)`. -/
def GoMap.empty {V : Type} : GoMap V := ⟨[]⟩

/-- Lookup in a list of entries. -/
def lookupEntry {V : Type} : List (Str × V) → Str → Option V
  | [], _ => none
  | (k0, v) :: rest, k => if k0 = k then some v else lookupEntry rest k

/-- Go `v, ok := m[k]`: `some v` when the key is present. -/
def GoMap.get {V : Type} (m : GoMap V) (k : Str) : Option V := lookupEntry m.entries k

/-- Go `m[k] = v`. -/
def GoMap.set {V : Type} (m : GoMap V) (k : Str) (v : V) : GoMap V :=
  ⟨m.entries.filter (fun e => !decide (e.1 = k)) ++ [(k, v)]⟩

/-- The keys of a map, in iteration order. -/
def GoMap.keys {V : Type} (m : GoMap V) : List Str := m.entries.map Prod.fst

/-- Go `m[k]` for a map of slices: the stored slice, or the nil slice when the
key is absent. -/
def GoMap.getSlice {V : Type} (m : GoMap (List V)) (k : Str) : List V :=
  match m.get k with
  | some v => v
  | none => []

/-! ## Descriptors (github.com/jhump/protoreflect/desc) -/

/-- A message type descriptor, `desc.MessageDescriptor`, by its getters. -/
structure MessageDescriptor where
  GetName : Str
  GetFullyQualifiedName : Str
  deriving DecidableEq, Repr

/-- A method descriptor, `desc.MethodDescriptor`, by its getters. -/
structure MethodDescriptor where
  GetName : Str
  GetFullyQualifiedName : Str
  GetInputType : MessageDescriptor
  GetOutputType : MessageDescriptor
  IsServerStreaming : Bool
  IsClientStreaming : Bool
  deriving DecidableEq, Repr

/-- A service descriptor, `desc.ServiceDescriptor`, by its getters. -/
structure ServiceDescriptor where
  GetName : Str
  GetFullyQualifiedName : Str
  GetMethods : List MethodDescriptor
  deriving DecidableEq, Repr

/-- A file descriptor, `desc.FileDescriptor`, by its getters. -/
structure FileDescriptor where
  GetPackage : Str
  GetServices : List ServiceDescriptor
  GetMessageTypes : List MessageDescriptor
  deriving DecidableEq, Repr

/-! ## grpc/grpc.go -/

/-- A dynamic message, `dynamic.Message`: its message type and its content. -/
structure Message where
  desc : MessageDescriptor
  content : Str
  deriving DecidableEq, Repr

/-- Go `dynamic.NewMessage(md)`: the empty message of a type. -/
def NewMessage (md : MessageDescriptor) : Message := ⟨md, []⟩

/-- The struct `grpc.Type`.  The factory `New` of the source always returns
`dynamic.NewMessage(t)` and a nil error for one message type `t`; the field
`New` holds that `t`. -/
structure GrpcType where
  Name : Str
  FullyQualifiedName : Str
  New : MessageDescriptor
  deriving DecidableEq, Repr

/-- The struct `grpc.RPC`. -/
structure RPC where
  Name : Str
  FullyQualifiedName : Str
  RequestType : GrpcType
  ResponseType : GrpcType
  IsServerStreaming : Bool
  IsClientStreaming : Bool
  deriving DecidableEq, Repr

/-! ## proto/proto.go: the schema index -/

/-- The struct `spec` of `proto/proto.go`. -/
structure spec where
  pkgNames : GoMap Unit
  svcDescs : GoMap (List ServiceDescriptor)
  rpcDescs : GoMap (List MethodDescriptor)
  msgDescs : GoMap MessageDescriptor
  deriving DecidableEq, Repr

/-- The four empty maps `Parse` starts from (lines 50 to 53). -/
def spec.empty : spec := ⟨GoMap.empty, GoMap.empty, GoMap.empty, GoMap.empty⟩

/-- The inner loop of `Parse` over the services of one file (lines 58 to 60). -/
def addServices (rpcDescs : GoMap (List MethodDescriptor)) :
    List ServiceDescriptor → GoMap (List MethodDescriptor)
  | [] => rpcDescs
  | sd :: rest =>
    addServices
      (rpcDescs.set sd.GetFullyQualifiedName
        (rpcDescs.getSlice sd.GetFullyQualifiedName ++ sd.GetMethods))
      rest

/-- The inner loop of `Parse` over the message types of one file (lines 61 to 63). -/
def addMessages (msgDescs : GoMap MessageDescriptor) :
    List MessageDescriptor → GoMap MessageDescriptor
  | [] => msgDescs
  | md :: rest => addMessages (msgDescs.set md.GetFullyQualifiedName md) rest

/-- One turn of the outer loop of `Parse` (lines 56 to 63). -/
def addDescriptor (s : spec) (descriptor : FileDescriptor) : spec :=
  { pkgNames := s.pkgNames.set descriptor.GetPackage ()
    svcDescs := s.svcDescs.set descriptor.GetPackage
      (s.svcDescs.getSlice descriptor.GetPackage ++ descriptor.GetServices)
    rpcDescs := addServices s.rpcDescs descriptor.GetServices
    msgDescs := addMessages s.msgDescs descriptor.GetMessageTypes }

/-- The outer loop of `Parse`, from a given state of the four maps. -/
def aggregateFrom (s : spec) : List FileDescriptor → spec
  | [] => s
  | descriptor :: rest => aggregateFrom (addDescriptor s descriptor) rest

/-- The aggregation of `Parse` (lines 50 to 70): the index of a list of file
descriptors. -/
def aggregate (descriptors : List FileDescriptor) : spec :=
  aggregateFrom spec.empty descriptors

/-- The function `Parse`.  The argument is what `parser.ParseFiles` returned
for the given files and import paths. -/
def Parse (parsed : Except Err (List FileDescriptor)) : Except Err spec :=
  match parsed with
  | .error err => .error (Err.wrap err "proto: failed to parse proto files".toList)
  | .ok descriptors => .ok (aggregate descriptors)

/-- The method `PackageNames`. -/
def spec.PackageNames (s : spec) : List Str := s.pkgNames.keys

/-- The method `ServiceNames`. -/
def spec.ServiceNames (s : spec) (pkgName : Str) : Except Err (List Str) :=
  if pkgName = [] then .error Err.ErrPackageIsEmpty
  else
    match s.svcDescs.get pkgName with
    | none => .error Err.ErrPackageUnknown
    | some descs => .ok (descs.map (fun d => d.GetName))

/-- The value `RPC` builds from a method descriptor (lines 144 to 165). -/
def rpcOf (d : MethodDescriptor) : RPC :=
  { Name := d.GetName
    FullyQualifiedName := d.GetFullyQualifiedName
    RequestType :=
      { Name := d.GetInputType.GetName
        FullyQualifiedName := d.GetInputType.GetFullyQualifiedName
        New := d.GetInputType }
    ResponseType :=
      { Name := d.GetOutputType.GetName
        FullyQualifiedName := d.GetOutputType.GetFullyQualifiedName
        New := d.GetOutputType }
    IsServerStreaming := d.IsServerStreaming
    IsClientStreaming := d.IsClientStreaming }

/-- The loop of `RPC` over the method descriptors (lines 142 to 168). -/
def findRPC (rpcName : Str) : List MethodDescriptor → Except Err RPC
  | [] => .error Err.ErrRPCUnknown
  | d :: rest => if d.GetName = rpcName then .ok (rpcOf d) else findRPC rpcName rest

/-- Go `fmt.Sprintf("%s.%s", pkgName, svcName)`. -/
def fqsnOf (pkgName svcName : Str) : Str := pkgName ++ '.' :: svcName

/-- The method `RPC`. -/
def spec.RPC (s : spec) (pkgName svcName rpcName : Str) : Except Err RPC :=
  match s.ServiceNames pkgName with
  | .error err => .error err
  | .ok _ =>
    if svcName = [] then .error Err.ErrServiceIsEmpty
    else
      match s.rpcDescs.get (fqsnOf pkgName svcName) with
      | none => .error Err.ErrServiceUnknown
      | some rpcDescs => findRPC rpcName rpcDescs

/-- What a call of `RPCs` does: it returns a value, returns an error, or panics. -/
inductive Outcome (α : Type) where
  | ok (a : α)
  | err (e : Err)
  | panicked (msg : Str)
  deriving DecidableEq, Repr

/-- The loop of `RPCs` over the method descriptors (lines 115 to 121). -/
def collectRPCs (s : spec) (pkgName svcName : Str) : List MethodDescriptor → Outcome (List RPC)
  | [] => .ok []
  | d :: rest =>
    match s.RPC pkgName svcName d.GetName with
    | .error err =>
      .panicked ("RPC must not return an error, but got ".toList ++ Char.ofNat 39 :: err.Error
        ++ [Char.ofNat 39])
    | .ok rpc =>
      match collectRPCs s pkgName svcName rest with
      | .ok rpcs => .ok (rpc :: rpcs)
      | other => other

/-- The method `RPCs`. -/
def spec.RPCs (s : spec) (pkgName svcName : Str) : Outcome (List GrpcCli.RPC) :=
  match s.ServiceNames pkgName with
  | .error err => .err err
  | .ok _ =>
    if svcName = [] then .err Err.ErrServiceIsEmpty
    else
      match s.rpcDescs.get (fqsnOf pkgName svcName) with
      | none => .err Err.ErrServiceUnknown
      | some rpcDescs => collectRPCs s pkgName svcName rpcDescs

/-! ## config/config.go -/

/-- The struct `config.Default`. -/
structure Default where
  ProtoPath : List Str
  ProtoFile : List Str
  Package : Str
  Service : Str
  Method : Str
  deriving DecidableEq, Repr

/-- The struct `config.Server`. -/
structure Server where
  Host : Str
  Port : Str
  Reflection : Bool
  TLS : Bool
  CACert : Str
  Cert : Str
  CertKey : Str
  Name : Str
  deriving DecidableEq, Repr

/-- The struct `config.Input`. -/
structure Input where
  Body : Str
  deriving DecidableEq, Repr

/-- The struct `config.Config`. -/
structure Config where
  Default : Default
  Server : Server
  Input : Input
  Describe : Str
  help : Bool
  deriving DecidableEq, Repr

/-- The method `Server.Address`. -/
def Server.Address (s : Server) : Str :=
  if s.Port ≠ [] then s.Host ++ ':' :: s.Port else s.Host

/-! ## Effects: the terminal and the network -/

/-- An operand of a formatted message. -/
inductive Arg where
  | str (s : Str)
  | err (e : Err)
  | headers (h : Option (GoMap Str))
  deriving DecidableEq, Repr

/-- The option `NewClient` passes to `grpc.DialContext`. -/
inductive DialOption where
  | WithInsecure
  | WithTransportCredentials (rootCAs clientCert : Bool) (serverName : Str)
  deriving DecidableEq, Repr

/-- What the program does to the outside, in the order it does it: calls of
`Infof` and `Errorf` with their format and operands, `rlI.SetPrompt` with the
format and operands of its argument, the text `PrintJSON` writes, and the
calls made to the gRPC library. -/
inductive Event where
  | Infof (format : Str) (args : List Arg)
  | Errorf (format : Str) (args : List Arg)
  | SetPrompt (format : Str) (args : List Str)
  | Print (text : Str)
  | DialContext (addr : Str) (opt : DialOption)
  | NewReflectionClient
  | ResetConnectBackoff
  | ConnInvoke (method : Str) (metadata : List (Str × Str)) (req : Message)
  deriving DecidableEq, Repr

/-- Whether a character that follows `%` in a format starts a flag, a width, a
precision or an argument index rather than being the verb. -/
def isDirectiveModifier (c : Char) : Bool :=
  c = '#' || c = '0' || c = '+' || c = '-' || c = ' ' || c = '*' || c = '.' || c = '['
    || c.isDigit

/-- Go `fmt.Sprintf(format, args...)`, which is also the text
`fmt.Fprintf(w, format, args...)` writes, on the directives made of `%` and a
verb alone.  Text outside directives is copied; `%%` gives `%`; the verbs `s`
and `v` print a string operand as it is and an error operand by its `Error()`;
a verb that finds no operand left gives `%!` + verb + `(MISSING)`; a `%` that
ends the format gives `%!(NOVERB)`.  The result is `none` for what is not
covered: flags, widths, precisions and argument indexes, other verbs applied
to an operand, map operands, and operands left over at the end. -/
def Sprintf : Str → List Arg → Option Str
  | [], [] => some []
  | [], _ :: _ => none
  | c :: rest, args =>
    if c = '%' then
      match rest with
      | [] =>
        match args with
        | [] => some "%!(NOVERB)".toList
        | _ :: _ => none
      | verb :: rest2 =>
        if verb = '%' then (Sprintf rest2 args).map (fun t => '%' :: t)
        else if isDirectiveModifier verb then none
        else
          match args with
          | [] =>
            (Sprintf rest2 []).map (fun t => "%!".toList ++ verb :: "(MISSING)".toList ++ t)
          | a :: args2 =>
            if verb = 's' ∨ verb = 'v' then
              match a with
              | .str text => (Sprintf rest2 args2).map (fun t => text ++ t)
              | .err e => (Sprintf rest2 args2).map (fun t => e.Error ++ t)
              | .headers _ => none
            else none
    else (Sprintf rest args).map (fun t => c :: t)

/-- The method `Infof` (cli.go, lines 277 to 279): the text it writes to the
terminal.  The message is formatted by `fmt.Sprintf(format, a...)`, put between
the colour codes by a second `fmt.Sprintf`, and the result is handed to
`fmt.Fprintf` as its format, without operands. -/
def cliConfig.Infof (format : Str) (args : List Arg) : Option Str :=
  match Sprintf format args with
  | none => none
  | some msg =>
    match Sprintf "\x1b[32m%s\x1b[39m\n".toList [Arg.str msg] with
    | none => none
    | some text => Sprintf text []

/-- The method `Errorf` (cli.go, lines 281 to 283): the text it writes to the
terminal.  The message is formatted by `fmt.Sprintf(format, a...)`, put between
the colour codes by a second `fmt.Sprintf`, and the result is handed to
`fmt.Fprintf` as its format, without operands. -/
def cliConfig.Errorf (format : Str) (args : List Arg) : Option Str :=
  match Sprintf format args with
  | none => none
  | some msg =>
    match Sprintf "\x1b[31m%s\x1b[39m\n".toList [Arg.str msg] with
    | none => none
    | some text => Sprintf text []

/-- The text an event writes to the terminal: that of `Infof` and `Errorf` for
their calls, the text itself for `PrintJSON`, and nothing for the other events. -/
def Event.written : Event → Option Str
  | .Infof format args => cliConfig.Infof format args
  | .Errorf format args => cliConfig.Errorf format args
  | .Print text => some text
  | _ => some []

/-- The behaviour of the libraries and of the server, which the program only
observes: whether a dial succeeds, whether the server name can be overridden,
whether the connection is in transient failure, the reply of the server, and
JSON decoding and encoding of dynamic messages. -/
structure Env where
  dial : Str → DialOption → Option Err
  overrideServerName : Str → Option Err
  transientFailure : Str → Bool
  invoke : Str → List (Str × Str) → Message → Message → Except Err Message
  unmarshal : Str → Message → Except Err Message
  marshalIndent : Message → Except Err Str

/-! ## client/client.go: the client -/

/-- The loaded certificates, `certs.Certs`, by what `NewClient` asks of them. -/
structure Certs where
  HasCaCert : Bool
  HasCert : Bool
  deriving DecidableEq, Repr

/-- The struct `ClientCfg`. -/
structure ClientCfg where
  Addr : Str
  ServerName : Str
  UseReflection : Bool
  WithTLS : Bool
  Certs : Certs
  deriving DecidableEq, Repr

/-- The struct `client`: the address its connection was dialed to, its headers,
and whether it holds a reflection client. -/
structure client where
  conn : Str
  headers : GoMap Str
  reflection : Bool
  deriving DecidableEq, Repr

/-- The function `NewClient`, with the calls it makes to the gRPC library. -/
def NewClient (env : Env) (cfg : ClientCfg) : Except Err client × List Event :=
  let opts : Except Err DialOption :=
    if !cfg.WithTLS then .ok DialOption.WithInsecure
    else
      let opt := DialOption.WithTransportCredentials cfg.Certs.HasCaCert cfg.Certs.HasCert
        cfg.ServerName
      if cfg.ServerName ≠ [] then
        match env.overrideServerName cfg.ServerName with
        | some err => .error (Err.wrap err "failed to override server name".toList)
        | none => .ok opt
      else .ok opt
  match opts with
  | .error err => (.error err, [])
  | .ok opt =>
    match env.dial cfg.Addr opt with
    | some err =>
      (.error (Err.wrap err "failed to dial to gRPC server".toList),
        [Event.DialContext cfg.Addr opt])
    | none =>
      (.ok { conn := cfg.Addr, headers := GoMap.empty, reflection := cfg.UseReflection },
        Event.DialContext cfg.Addr opt ::
          (if cfg.UseReflection then [Event.NewReflectionClient] else []))

/-- The function `connectBackOff`, for a connection that is not nil. -/
def connectBackOff (env : Env) (conn : Str) : List Event :=
  if env.transientFailure conn then [Event.ResetConnectBackoff] else []

/-- The method `client.Invoke`; `metadata` is the outgoing metadata carried by
the context argument. -/
def client.Invoke (env : Env) (c : client) (metadata : List (Str × Str)) (fqrn : Str)
    (req resp : Message) : Except Err Message × List Event :=
  match fullQualifiedRPCNameToMethod fqrn with
  | .error err => (.error err, [])
  | .ok method =>
    (env.invoke method metadata req resp,
      connectBackOff env c.conn ++ [Event.ConnInvoke method metadata req])

/-! ## cli/cli.go: the interactive session -/

/-- The constant `lineDelimiter = " "` of `cli/cli.go`. -/
def lineDelimiter : Char := ' '

/-- The session state of the struct `cliConfig`: the application configuration
it points to, the schema index and the headers (`none` is the nil map). -/
structure cliConfig where
  appCfg : Config
  spec : spec
  headers : Option (GoMap Str)
  deriving DecidableEq, Repr

/-- The headers as a map that can be assigned to: `setServerProps` replaces the
nil map by `make(map[string]string)` before it assigns (lines 126 to 128). -/
def headerMap (headers : Option (GoMap Str)) : GoMap Str :=
  match headers with
  | none => GoMap.empty
  | some h => h

/-- The method `showInfo`. -/
def cliConfig.showInfo (c : cliConfig) : List Event :=
  [Event.Infof "Host: %+v\nPort: %+v\nHeaders: %+v".toList
    [Arg.str c.appCfg.Server.Host, Arg.str c.appCfg.Server.Port, Arg.headers c.headers]]

/-- The method `setServerProps`. -/
def cliConfig.setServerProps (c : cliConfig) (cmd : List Str) : cliConfig × List Event :=
  match cmd with
  | cmd0 :: cmd1 :: rest =>
    let c1 : cliConfig :=
      if cmd0 = "host".toList then
        { c with appCfg := { c.appCfg with Server := { c.appCfg.Server with Host := cmd1 } } }
      else if cmd0 = "port".toList then
        { c with appCfg := { c.appCfg with Server := { c.appCfg.Server with Port := cmd1 } } }
      else if cmd0 = "header".toList then
        if (cmd0 :: cmd1 :: rest).length > 2 then
          { c with headers := some ((headerMap c.headers).set cmd1 (Join rest [lineDelimiter])) }
        else c
      else c
    (c1, c1.showInfo)
  | _ => (c, [])

/-- The method `updPrompt`. -/
def cliConfig.updPrompt (c : cliConfig) : List Event :=
  if c.appCfg.Default.Package = [] ∨ c.appCfg.Default.Package = "nil".toList then []
  else if c.appCfg.Default.Service = [] ∨ c.appCfg.Default.Service = "nil".toList then
    [Event.SetPrompt "\x1b[34m%s \x1b[32m>\x1b[39m ".toList [c.appCfg.Default.Package]]
  else
    [Event.SetPrompt "\x1b[34m%s.%s \x1b[32m>\x1b[39m ".toList
      [c.appCfg.Default.Package, c.appCfg.Default.Service]]

/-- The search loops of `getOrSetPackage` and `getOrSetService` (lines 142 to
147 and 167 to 172): whether some name of the list equals the argument. -/
def nameExists (arg : Str) : List Str → Bool
  | [] => false
  | name :: rest => if name = arg then true else nameExists arg rest

/-- The method `getOrSetPackage`; the deferred `updPrompt` runs last. -/
def cliConfig.getOrSetPackage (c : cliConfig) (cmd : List Str) : cliConfig × List Event :=
  match cmd with
  | [] => (c, [Event.Infof c.appCfg.Default.Package []])
  | cmd0 :: _ =>
    let pkgExists := nameExists cmd0 c.spec.PackageNames
    if !pkgExists then
      (c, Event.Errorf ("unknown package name ".toList ++ Char.ofNat 34 :: "%s".toList
        ++ [Char.ofNat 34]) [Arg.str cmd0] :: c.updPrompt)
    else
      let c1 : cliConfig :=
        { c with appCfg := { c.appCfg with Default := { c.appCfg.Default with Package := cmd0 } } }
      (c1, Event.Infof c1.appCfg.Default.Package [] :: c1.updPrompt)

/-- The method `getOrSetService`; the deferred `updPrompt` runs last. -/
def cliConfig.getOrSetService (c : cliConfig) (cmd : List Str) : cliConfig × List Event :=
  match cmd with
  | [] => (c, [Event.Infof c.appCfg.Default.Service []])
  | cmd0 :: _ =>
    let res := c.spec.ServiceNames c.appCfg.Default.Package
    let ev1 : List Event := match res with
      | .error err => [Event.Errorf err.Error []]
      | .ok _ => []
    let svcNames : List Str := match res with
      | .error _ => []
      | .ok names => names
    let svcExists := nameExists cmd0 svcNames
    let ev2 : List Event :=
      if !svcExists then
        [Event.Errorf ("unknown service name ".toList ++ Char.ofNat 34 :: "%s".toList
          ++ [Char.ofNat 34]) [Arg.str cmd0]]
      else []
    let c1 : cliConfig :=
      { c with appCfg := { c.appCfg with Default := { c.appCfg.Default with Service := cmd0 } } }
    (c1, ev1 ++ ev2 ++ Event.Infof c1.appCfg.Default.Service [] :: c1.updPrompt)

/-- The method `PrintJSON`. -/
def PrintJSON (env : Env) (j : Message) : Option Err × List Event :=
  match env.marshalIndent j with
  | .error err => (some err, [])
  | .ok b => (none, [Event.Print (b ++ "\n".toList)])

/-- The function `newGRPCRequest`, with `c.PrintJSON` for its last argument. -/
def newGRPCRequest (env : Env) (rpc : RPC) (data : Str) : Except Err Message × List Event :=
  let req := NewMessage rpc.RequestType.New
  match env.unmarshal data req with
  | .error err =>
    (.error (Err.wrap err ("failed to unmarshal data ".toList ++ Char.ofNat 34 :: data
      ++ Char.ofNat 34 :: " to RPC request".toList)), [])
  | .ok req1 =>
    match PrintJSON env req1 with
    | (some err, evs) => (.error (Err.wrap err "failed to marshal RPC response".toList), evs)
    | (none, evs) => (.ok req1, evs)

/-- The method `call`.  The session state is not assigned to; the result is
what the call does to the outside.  The metadata of the invocation is the list
of header entries handed to `meta.Append`. -/
def cliConfig.call (env : Env) (c : cliConfig) (cmd : List Str) : List Event :=
  match cmd with
  | cmd0 :: cmd1 :: rest =>
    let cfg : ClientCfg :=
      { Addr := c.appCfg.Server.Address, ServerName := [], UseReflection := false,
        WithTLS := false, Certs := ⟨false, false⟩ }
    match NewClient env cfg with
    | (.error err, evs) =>
      evs ++ [Event.Errorf "failed to create new client: %v".toList [Arg.err err]]
    | (.ok cli, evs) =>
      match c.spec.RPC c.appCfg.Default.Package c.appCfg.Default.Service cmd0 with
      | .error err => evs ++ [Event.Errorf "failed to get RPC: %v".toList [Arg.err err]]
      | .ok rpc =>
        match newGRPCRequest env rpc (Join (cmd1 :: rest) [lineDelimiter]) with
        | (.error err, evs2) => evs ++ evs2 ++ [Event.Errorf err.Error []]
        | (.ok req, evs2) =>
          let resp := NewMessage rpc.ResponseType.New
          let meta : List (Str × Str) := match c.headers with
            | none => []
            | some h => h.entries
          match client.Invoke env cli meta rpc.FullyQualifiedName req resp with
          | (.error err, evs3) =>
            evs ++ evs2 ++ evs3
              ++ [Event.Errorf "failed to request RPC service: %v".toList [Arg.err err]]
          | (.ok resp1, evs3) =>
            match PrintJSON env resp1 with
            | (some err, evs4) =>
              evs ++ evs2 ++ evs3 ++ evs4
                ++ [Event.Errorf "failed to marshal RPC response: %v".toList [Arg.err err]]
            | (none, evs4) => evs ++ evs2 ++ evs3 ++ evs4
  | _ => []

/-- The `switch` of `Run` (lines 91 to 104) on the tokens of one input line. -/
def dispatch (env : Env) (c : cliConfig) (cmdSlice : List Str) : cliConfig × List Event :=
  match cmdSlice with
  | [] => (c, [])
  | cmd0 :: rest =>
    if cmd0 = "info".toList then (c, c.showInfo)
    else if cmd0 = "package".toList then c.getOrSetPackage rest
    else if cmd0 = "service".toList then c.getOrSetService rest
    else if cmd0 = "call".toList then (c, c.call env rest)
    else if cmd0 = "set".toList then c.setServerProps rest
    else (c, [])

/-! ## Example inputs -/

/-- An environment in which every dial succeeds and the server echoes the
request. -/
def demoEnv : Env :=
  { dial := fun _ _ => none
    overrideServerName := fun _ => none
    transientFailure := fun _ => false
    invoke := fun _ _ req _ => .ok req
    unmarshal := fun data m => .ok { m with content := data }
    marshalIndent := fun m => .ok m.content }

/-- A client connected to `localhost:50051`. -/
def demoClient : client :=
  { conn := "localhost:50051".toList, headers := GoMap.empty, reflection := false }

/-- The message type `demo.HelloRequest`. -/
def helloRequest : MessageDescriptor := ⟨"HelloRequest".toList, "demo.HelloRequest".toList⟩

/-- The message type `demo.HelloReply`. -/
def helloReply : MessageDescriptor := ⟨"HelloReply".toList, "demo.HelloReply".toList⟩

/-- The services declared under a package in a list of file descriptors: those
of the files of that package, the files in input order and the services in
their order within each file. -/
def declaredServices (pkgName : Str) : List FileDescriptor → List ServiceDescriptor
  | [] => []
  | d :: rest =>
    if d.GetPackage = pkgName then d.GetServices ++ declaredServices pkgName rest
    else declaredServices pkgName rest

/-- The method `demo.Greeter.SayHello`. -/
def sayHello : MethodDescriptor :=
  ⟨"SayHello".toList, "demo.Greeter.SayHello".toList, helloRequest, helloReply, false, false⟩

/-- The method `demo.Greeter.SayHelloAgain`, server streaming. -/
def sayHelloAgain : MethodDescriptor :=
  ⟨"SayHelloAgain".toList, "demo.Greeter.SayHelloAgain".toList, helloRequest, helloReply,
    true, false⟩

/-- The service `demo.Greeter`. -/
def greeter : ServiceDescriptor :=
  ⟨"Greeter".toList, "demo.Greeter".toList, [sayHello, sayHelloAgain]⟩

/-- The service `demo.Admin`, without methods. -/
def admin : ServiceDescriptor := ⟨"Admin".toList, "demo.Admin".toList, []⟩

/-- The service `other.Echo`, without methods. -/
def echo : ServiceDescriptor := ⟨"Echo".toList, "other.Echo".toList, []⟩

/-- Three files: two of the package `demo` and, between them, one of the
package `other`. -/
def demoFiles : List FileDescriptor :=
  [⟨"demo".toList, [greeter], [helloRequest, helloReply]⟩,
    ⟨"other".toList, [echo], []⟩,
    ⟨"demo".toList, [admin], []⟩]

/-- The index of `demoFiles`. -/
def demoIndex : spec := aggregate demoFiles

/-- The methods declared under a fully-qualified service name in a list of
service descriptors, in declaration order. -/
def methodsUnder (fqsn : Str) : List ServiceDescriptor → List MethodDescriptor
  | [] => []
  | sd :: rest =>
    if sd.GetFullyQualifiedName = fqsn then sd.GetMethods ++ methodsUnder fqsn rest
    else methodsUnder fqsn rest

/-- The methods declared under a fully-qualified service name in a list of file
descriptors, the files in input order. -/
def declaredMethods (fqsn : Str) : List FileDescriptor → List MethodDescriptor
  | [] => []
  | d :: rest => methodsUnder fqsn d.GetServices ++ declaredMethods fqsn rest

/-- The configuration `registerCfg` builds when no flag is given. -/
def defaultConfig : Config :=
  { Default :=
      { ProtoPath := [], ProtoFile := [], Package := "nil".toList, Service := "nil".toList,
        Method := "nil".toList }
    Server :=
      { Host := "localhost".toList, Port := "50051".toList, Reflection := false, TLS := false,
        CACert := [], Cert := [], CertKey := [], Name := [] }
    Input := { Body := [] }
    Describe := []
    help := false }

/-- A session at its start, over the example index. -/
def demoSession : cliConfig := { appCfg := defaultConfig, spec := demoIndex, headers := none }

/-- A session with the package `demo` and the service `Greeter` selected. -/
def greeterSession : cliConfig :=
  { appCfg :=
      { defaultConfig with
        Default :=
          { defaultConfig.Default with Package := "demo".toList, Service := "Greeter".toList } }
    spec := demoIndex
    headers := none }

/-- Whether an event is a call made to the gRPC library. -/
def Event.isNetwork : Event → Bool
  | .DialContext _ _ => true
  | .NewReflectionClient => true
  | .ResetConnectBackoff => true
  | .ConnInvoke _ _ _ => true
  | _ => false

/-- An environment in which every dial fails. -/
def refusingEnv : Env :=
  { demoEnv with dial := fun _ _ => some (Err.external "connection refused".toList) }

/-- A session that already holds two headers, `x-trace` and `authorization`. -/
def headerSession : cliConfig :=
  { appCfg := defaultConfig
    spec := demoIndex
    headers := some ⟨[("x-trace".toList, "1".toList), ("authorization".toList, "old".toList)]⟩ }

/-! ## Facts about `Split` and `Join` -/

theorem Split_ne_nil (s : Str) (sep : Char) : Split s sep ≠ [] := by
  induction s with
  | nil => simp [Split]
  | cons c cs ih =>
    unfold Split
    split_ifs
    · simp
    · split <;> simp

theorem Split_cons_ne (c sep : Char) (cs : Str) (h : c ≠ sep) :
    ∃ seg segs, Split cs sep = seg :: segs ∧ Split (c :: cs) sep = (c :: seg) :: segs := by
  cases hs : Split cs sep with
  | nil => exact absurd hs (Split_ne_nil cs sep)
  | cons seg segs =>
    refine ⟨seg, segs, rfl, ?_⟩
    rw [Split, if_neg h, hs]

/-- Splitting around one occurrence of the separator. -/
theorem Split_append_sep (a b : Str) (sep : Char) :
    Split (a ++ sep :: b) sep = Split a sep ++ Split b sep := by
  induction a with
  | nil => simp [Split]
  | cons c cs ih =>
    by_cases h : c = sep
    · subst h
      simp [Split, ih]
    · obtain ⟨seg, segs, h1, h2⟩ := Split_cons_ne c sep cs h
      rw [h2]
      have h3 : Split (c :: (cs ++ sep :: b)) sep = (c :: seg) :: (segs ++ Split b sep) := by
        rw [Split, if_neg h, ih, h1]
        rfl
      simpa using h3

/-- A string without the separator is its own single segment. -/
theorem Split_of_not_mem (m : Str) (sep : Char) (h : sep ∉ m) : Split m sep = [m] := by
  induction m with
  | nil => rfl
  | cons c cs ih =>
    have hc : c ≠ sep := fun e => h (by simp [e])
    have hcs : sep ∉ cs := fun e => h (by simp [e])
    rw [Split, if_neg hc, ih hcs]

/-- No segment of a split contains the separator. -/
theorem not_mem_of_mem_Split (s : Str) (sep : Char) :
    ∀ seg ∈ Split s sep, sep ∉ seg := by
  induction s with
  | nil => simp [Split]
  | cons c cs ih =>
    by_cases h : c = sep
    · subst h
      intro seg hseg
      simp only [Split, if_true, List.mem_cons] at hseg
      rcases hseg with rfl | hseg
      · simp
      · exact ih seg hseg
    · obtain ⟨seg0, segs, h1, h2⟩ := Split_cons_ne c sep cs h
      intro seg hseg
      rw [h2] at hseg
      rw [h1] at ih
      rcases List.mem_cons.1 hseg with rfl | hseg
      · intro hm
        rcases List.mem_cons.1 hm with e | hm
        · exact h e.symm
        · exact ih seg0 (by simp) hm
      · exact ih seg (by simp [hseg])

theorem Join_cons_of_ne_nil (a : Str) (l : List Str) (sep : Str) (h : l ≠ []) :
    Join (a :: l) sep = a ++ sep ++ Join l sep := by
  cases l with
  | nil => exact absurd rfl h
  | cons b rest => rfl

/-- Joining the segments of a split gives the string back. -/
theorem Join_Split (s : Str) (sep : Char) : Join (Split s sep) [sep] = s := by
  induction s with
  | nil => rfl
  | cons c cs ih =>
    by_cases h : c = sep
    · subst h
      rw [Split, if_pos rfl, Join_cons_of_ne_nil _ _ _ (Split_ne_nil cs c), ih]
      rfl
    · obtain ⟨seg, segs, h1, h2⟩ := Split_cons_ne c sep cs h
      rw [h2]
      rw [h1] at ih
      cases segs with
      | nil =>
        simp only [Join] at ih ⊢
        rw [ih]
      | cons b rest =>
        simp only [Join] at ih ⊢
        rw [← ih]
        simp

theorem Join_append_singleton (l : List Str) (m sep : Str) (h : l ≠ []) :
    Join (l ++ [m]) sep = Join l sep ++ sep ++ m := by
  induction l with
  | nil => exact absurd rfl h
  | cons a rest ih =>
    cases rest with
    | nil => simp [Join]
    | cons b rest2 =>
      have h1 := ih (by simp)
      rw [List.cons_append, Join_cons_of_ne_nil a _ sep (by simp), h1,
        Join_cons_of_ne_nil a _ sep (by simp)]
      simp

/-- The number of segments of a split is the number of separators plus one. -/
theorem length_Split (s : Str) (sep : Char) :
    (Split s sep).length = s.count sep + 1 := by
  induction s with
  | nil => rfl
  | cons c cs ih =>
    by_cases h : c = sep
    · subst h
      simp [Split, ih]
    · obtain ⟨seg, segs, h1, h2⟩ := Split_cons_ne c sep cs h
      rw [h2, List.count_cons_of_ne (Ne.symm h), ← ih, h1]
      rfl

/-! ## The method resolver -/

/-- The wire path of a name whose split is known. -/
theorem wire_of_Split (name : Str) (segs : List Str) (last : Str)
    (hs : Split name '.' = segs ++ [last]) (hl : 2 ≤ segs.length) :
    fullQualifiedRPCNameToMethod name = .ok ('/' :: Join segs ['.'] ++ '/' :: last) := by
  have h3 : ¬ (segs ++ [last]).length < 3 := by simp; omega
  simp only [fullQualifiedRPCNameToMethod, rpcNameDelimiter, hs, if_neg h3]
  simp

/-- The wire path of a service name followed by a method name. -/
theorem wire_of_service_method (service method : Str) (hs : '.' ∈ service)
    (hm : '.' ∉ method) :
    fullQualifiedRPCNameToMethod (service ++ '.' :: method)
      = .ok ('/' :: service ++ '/' :: method) := by
  have h1 : Split (service ++ '.' :: method) '.' = Split service '.' ++ [method] := by
    rw [Split_append_sep, Split_of_not_mem method '.' hm]
  have h2 : 2 ≤ (Split service '.').length := by
    rw [length_Split]
    have := List.count_pos_iff.2 hs
    omega
  rw [wire_of_Split _ _ _ h1 h2, Join_Split]

/-- The resolver fails exactly on names of fewer than three segments. -/
theorem resolver_fails_iff (name : Str) :
    fullQualifiedRPCNameToMethod name = .error Err.invalidFullQualifiedRPCName
      ↔ (Split name '.').length < 3 := by
  unfold fullQualifiedRPCNameToMethod rpcNameDelimiter
  by_cases h : (Split name '.').length < 3 <;> simp [h]

/-- C1: for every fully-qualified method name whose split on `.` has at least
three segments (`segs` are all segments but the last, `last` is the last one),
`fullQualifiedRPCNameToMethod` returns `/`, then `segs` rejoined with `.`, then
`/`, then `last`.  Said on the name itself: a name `service.method` whose
`service` part contains a `.` and whose `method` part contains none gives
`/service/method`.  In particular `a.b.C.Method` gives `/a.b.C/Method`. -/
theorem fullQualifiedRPCNameToMethod_wire_path :
    (∀ (name : Str) (segs : List Str) (last : Str),
      Split name '.' = segs ++ [last] → 2 ≤ segs.length →
      fullQualifiedRPCNameToMethod name = .ok ('/' :: Join segs ['.'] ++ '/' :: last)) ∧
    (∀ service method : Str, '.' ∈ service → '.' ∉ method →
      fullQualifiedRPCNameToMethod (service ++ '.' :: method)
        = .ok ('/' :: service ++ '/' :: method)) ∧
    fullQualifiedRPCNameToMethod "a.b.C.Method".toList = .ok "/a.b.C/Method".toList :=
  ⟨wire_of_Split, wire_of_service_method, by decide⟩

/-- The witness of C1: the name `demo.Greeter.SayHello`. -/
theorem fullQualifiedRPCNameToMethod_wire_path_witness :
    Split "demo.Greeter.SayHello".toList '.'
        = ["demo".toList, "Greeter".toList] ++ ["SayHello".toList] ∧
      2 ≤ ["demo".toList, "Greeter".toList].length ∧
      fullQualifiedRPCNameToMethod "demo.Greeter.SayHello".toList
        = .ok ('/' :: Join ["demo".toList, "Greeter".toList] ['.'] ++ '/' :: "SayHello".toList) :=
  ⟨by decide, by decide,
    fullQualifiedRPCNameToMethod_wire_path.1 "demo.Greeter.SayHello".toList
      ["demo".toList, "Greeter".toList] "SayHello".toList (by decide) (by decide)⟩

/-- C2: `fullQualifiedRPCNameToMethod` fails, with the error of an invalid
fully-qualified name and no other, if and only if the name has fewer than three
segments between dots, that is fewer than two dots; `Method` and `Svc.Method`
are rejected; and `Invoke` on such a name returns that error and calls nothing
on the connection. -/
theorem fullQualifiedRPCNameToMethod_fails_iff :
    (∀ name : Str,
      fullQualifiedRPCNameToMethod name = .error Err.invalidFullQualifiedRPCName
        ↔ (Split name '.').length < 3) ∧
    (∀ (name : Str) (e : Err), fullQualifiedRPCNameToMethod name = .error e →
      e = Err.invalidFullQualifiedRPCName ∧ (Split name '.').length < 3) ∧
    (∀ name : Str, (Split name '.').length < 3 ↔ name.count '.' < 2) ∧
    fullQualifiedRPCNameToMethod "Method".toList = .error Err.invalidFullQualifiedRPCName ∧
    fullQualifiedRPCNameToMethod "Svc.Method".toList
      = .error Err.invalidFullQualifiedRPCName ∧
    (∀ (env : Env) (c : client) (metadata : List (Str × Str)) (fqrn : Str)
      (req resp : Message), (Split fqrn '.').length < 3 →
      client.Invoke env c metadata fqrn req resp
        = (.error Err.invalidFullQualifiedRPCName, [])) := by
  refine ⟨resolver_fails_iff, ?_, ?_, by decide, by decide, ?_⟩
  · intro name e h
    by_cases hl : (Split name '.').length < 3
    · rw [(resolver_fails_iff name).2 hl] at h
      exact ⟨(Except.error.inj h).symm, hl⟩
    · simp [fullQualifiedRPCNameToMethod, rpcNameDelimiter, hl] at h
  · intro name
    rw [length_Split]
    omega
  · intro env c metadata fqrn req resp hl
    simp only [client.Invoke, (resolver_fails_iff fqrn).2 hl]

/-- The witness of C2: `Invoke` on the two-segment name `Svc.Method`. -/
theorem fullQualifiedRPCNameToMethod_fails_iff_witness :
    (Split "Svc.Method".toList '.').length < 3 ∧
      client.Invoke demoEnv demoClient [] "Svc.Method".toList (NewMessage helloRequest)
        (NewMessage helloReply) = (.error Err.invalidFullQualifiedRPCName, []) :=
  ⟨by decide,
    fullQualifiedRPCNameToMethod_fails_iff.2.2.2.2.2 demoEnv demoClient []
      "Svc.Method".toList (NewMessage helloRequest) (NewMessage helloReply) (by decide)⟩

/-! ## Go maps -/

theorem lookupEntry_append {V : Type} (l1 l2 : List (Str × V)) (k : Str) :
    lookupEntry (l1 ++ l2) k
      = match lookupEntry l1 k with
        | some v => some v
        | none => lookupEntry l2 k := by
  induction l1 with
  | nil => rfl
  | cons e rest ih =>
    obtain ⟨k0, v⟩ := e
    by_cases h : k0 = k <;> simp [lookupEntry, h, ih]

theorem lookupEntry_filter_ne {V : Type} (l : List (Str × V)) (k k1 : Str) :
    lookupEntry (l.filter (fun e => !decide (e.1 = k))) k1
      = if k1 = k then none else lookupEntry l k1 := by
  induction l with
  | nil => simp [lookupEntry]
  | cons e rest ih =>
    obtain ⟨k0, v⟩ := e
    by_cases h0 : k0 = k
    · subst h0
      by_cases h1 : k1 = k0
      · subst h1
        simp [lookupEntry, ih]
      · have h2 : ¬ k0 = k1 := fun e => h1 e.symm
        simp [lookupEntry, ih, h1, h2]
    · by_cases h1 : k0 = k1
      · subst h1
        simp [lookupEntry, h0]
      · simp [lookupEntry, ih, h0, h1]

/-- Reading a map after an assignment. -/
theorem GoMap.get_set {V : Type} (m : GoMap V) (k k1 : Str) (v : V) :
    (m.set k v).get k1 = if k1 = k then some v else m.get k1 := by
  simp only [GoMap.get, GoMap.set, lookupEntry_append, lookupEntry_filter_ne]
  by_cases h : k1 = k
  · subst h
    simp [lookupEntry]
  · have h2 : ¬ k = k1 := fun e => h e.symm
    simp only [if_neg h]
    cases lookupEntry m.entries k1 <;> simp [lookupEntry, h2]

theorem GoMap.getSlice_set {V : Type} (m : GoMap (List V)) (k k1 : Str) (v : List V) :
    (m.set k v).getSlice k1 = if k1 = k then v else m.getSlice k1 := by
  simp only [GoMap.getSlice, GoMap.get_set]
  by_cases h : k1 = k <;> simp [h]

/-! ## The schema index: services by package -/

theorem svcDescs_aggregateFrom_getSlice (pkgName : Str) (ds : List FileDescriptor) :
    ∀ s : spec, (aggregateFrom s ds).svcDescs.getSlice pkgName
      = s.svcDescs.getSlice pkgName ++ declaredServices pkgName ds := by
  induction ds with
  | nil => intro s; simp [aggregateFrom, declaredServices]
  | cons d rest ih =>
    intro s
    rw [aggregateFrom, ih]
    simp only [addDescriptor, GoMap.getSlice_set, declaredServices]
    by_cases h : d.GetPackage = pkgName
    · subst h
      simp
    · have h2 : ¬ pkgName = d.GetPackage := fun e => h e.symm
      simp [h, h2]

theorem svcDescs_aggregateFrom_get_eq_none (pkgName : Str) (ds : List FileDescriptor) :
    ∀ s : spec, (aggregateFrom s ds).svcDescs.get pkgName = none
      ↔ s.svcDescs.get pkgName = none ∧ ∀ d ∈ ds, d.GetPackage ≠ pkgName := by
  induction ds with
  | nil => intro s; simp [aggregateFrom]
  | cons d rest ih =>
    intro s
    rw [aggregateFrom, ih]
    simp only [addDescriptor, GoMap.get_set]
    by_cases h : pkgName = d.GetPackage
    · subst h
      simp
    · have h2 : ¬ d.GetPackage = pkgName := fun e => h e.symm
      simp [h, h2]

theorem ServiceNames_of_get (s : spec) (pkgName : Str) (descs : List ServiceDescriptor)
    (hp : pkgName ≠ []) (hg : s.svcDescs.get pkgName = some descs) :
    s.ServiceNames pkgName = .ok (descs.map (fun d => d.GetName)) := by
  simp [spec.ServiceNames, hp, hg]

/-- C3: for the index built from a list of file descriptors and a non-empty
package name that has an entry, `ServiceNames` returns exactly the names of the
services declared under that package, the files in input order and the services
in their order within each file; and a package has an entry exactly when some
file of the list declares it. -/
theorem ServiceNames_aggregate :
    (∀ (descriptors : List FileDescriptor) (pkgName : Str), pkgName ≠ [] →
      (aggregate descriptors).svcDescs.get pkgName ≠ none →
      (aggregate descriptors).ServiceNames pkgName
        = .ok ((declaredServices pkgName descriptors).map (fun d => d.GetName))) ∧
    (∀ (descriptors : List FileDescriptor) (pkgName : Str),
      (aggregate descriptors).svcDescs.get pkgName ≠ none
        ↔ ∃ d ∈ descriptors, d.GetPackage = pkgName) := by
  constructor
  · intro descriptors pkgName hp he
    cases hg : (aggregate descriptors).svcDescs.get pkgName with
    | none => exact absurd hg he
    | some descs =>
      rw [ServiceNames_of_get _ _ _ hp hg]
      have h1 := svcDescs_aggregateFrom_getSlice pkgName descriptors spec.empty
      have h2 : (aggregate descriptors).svcDescs.getSlice pkgName = descs := by
        simp [GoMap.getSlice, hg]
      have h3 : spec.empty.svcDescs.getSlice pkgName = [] := rfl
      rw [aggregate] at h2
      rw [h2, h3] at h1
      rw [h1]
      rfl
  · intro descriptors pkgName
    rw [Ne, aggregate, svcDescs_aggregateFrom_get_eq_none]
    have h3 : spec.empty.svcDescs.get pkgName = none := rfl
    simp [h3]

/-- The witness of C3: the package `demo` of the three example files. -/
theorem ServiceNames_aggregate_witness :
    "demo".toList ≠ [] ∧ (aggregate demoFiles).svcDescs.get "demo".toList ≠ none ∧
      (aggregate demoFiles).ServiceNames "demo".toList
        = .ok ((declaredServices "demo".toList demoFiles).map (fun d => d.GetName)) ∧
      (declaredServices "demo".toList demoFiles).map (fun d => d.GetName)
        = ["Greeter".toList, "Admin".toList] :=
  ⟨by decide, by decide,
    ServiceNames_aggregate.1 demoFiles "demo".toList (by decide) (by decide), by decide⟩

/-! ## The schema index: lookups of methods -/

theorem ServiceNames_empty (s : spec) : s.ServiceNames [] = .error Err.ErrPackageIsEmpty := by
  simp [spec.ServiceNames]

theorem ServiceNames_unknown (s : spec) (pkgName : Str) (hp : pkgName ≠ [])
    (hg : s.svcDescs.get pkgName = none) :
    s.ServiceNames pkgName = .error Err.ErrPackageUnknown := by
  simp [spec.ServiceNames, hp, hg]

theorem ServiceNames_known (s : spec) (pkgName : Str) (hp : pkgName ≠ [])
    (hg : s.svcDescs.get pkgName ≠ none) :
    ∃ names, s.ServiceNames pkgName = .ok names := by
  cases h : s.svcDescs.get pkgName with
  | none => exact absurd h hg
  | some descs => exact ⟨_, ServiceNames_of_get s pkgName descs hp h⟩

/-- After validation `RPC` is the search loop over the stored method descriptors. -/
theorem RPC_of_valid (s : spec) (pkgName svcName rpcName : Str)
    (descs : List MethodDescriptor) (hp : pkgName ≠ [])
    (hg : s.svcDescs.get pkgName ≠ none) (hs : svcName ≠ [])
    (hd : s.rpcDescs.get (fqsnOf pkgName svcName) = some descs) :
    s.RPC pkgName svcName rpcName = findRPC rpcName descs := by
  obtain ⟨names, hn⟩ := ServiceNames_known s pkgName hp hg
  simp [spec.RPC, hn, hs, hd]

/-- After validation `RPCs` is the collecting loop over the stored method descriptors. -/
theorem RPCs_of_valid (s : spec) (pkgName svcName : Str)
    (descs : List MethodDescriptor) (hp : pkgName ≠ [])
    (hg : s.svcDescs.get pkgName ≠ none) (hs : svcName ≠ [])
    (hd : s.rpcDescs.get (fqsnOf pkgName svcName) = some descs) :
    s.RPCs pkgName svcName = collectRPCs s pkgName svcName descs := by
  obtain ⟨names, hn⟩ := ServiceNames_known s pkgName hp hg
  simp [spec.RPCs, hn, hs, hd]

theorem findRPC_error (rpcName : Str) (descs : List MethodDescriptor) (e : Err)
    (h : findRPC rpcName descs = .error e) : e = Err.ErrRPCUnknown := by
  induction descs with
  | nil =>
    simp only [findRPC] at h
    exact (Except.error.inj h).symm
  | cons d rest ih =>
    by_cases hn : d.GetName = rpcName
    · simp [findRPC, hn] at h
    · simp only [findRPC, if_neg hn] at h
      exact ih h

theorem collectRPCs_ne_err (s : spec) (pkgName svcName : Str)
    (descs : List MethodDescriptor) (e : Err) :
    collectRPCs s pkgName svcName descs ≠ .err e := by
  induction descs with
  | nil => simp [collectRPCs]
  | cons d rest ih =>
    unfold collectRPCs
    cases s.RPC pkgName svcName d.GetName with
    | error err => simp
    | ok rpc =>
      cases h : collectRPCs s pkgName svcName rest with
      | ok rpcs => simp
      | err e2 =>
        intro h2
        have h3 : e2 = e := by simpa using h2
        subst h3
        first | exact ih rfl | exact ih h
      | panicked msg => simp

theorem RPC_RPCs_pkg_empty (s : spec) (svcName : Str) :
    s.RPCs [] svcName = .err Err.ErrPackageIsEmpty ∧
      ∀ m, s.RPC [] svcName m = .error Err.ErrPackageIsEmpty := by
  simp [spec.RPCs, spec.RPC, ServiceNames_empty]

theorem RPC_RPCs_pkg_unknown (s : spec) (pkgName svcName : Str) (hp : pkgName ≠ [])
    (hg : s.svcDescs.get pkgName = none) :
    s.RPCs pkgName svcName = .err Err.ErrPackageUnknown ∧
      ∀ m, s.RPC pkgName svcName m = .error Err.ErrPackageUnknown := by
  simp [spec.RPCs, spec.RPC, ServiceNames_unknown s pkgName hp hg]

theorem RPC_RPCs_svc_empty (s : spec) (pkgName : Str) (hp : pkgName ≠ [])
    (hg : s.svcDescs.get pkgName ≠ none) :
    s.RPCs pkgName [] = .err Err.ErrServiceIsEmpty ∧
      ∀ m, s.RPC pkgName [] m = .error Err.ErrServiceIsEmpty := by
  obtain ⟨names, hn⟩ := ServiceNames_known s pkgName hp hg
  simp [spec.RPCs, spec.RPC, hn]

theorem RPC_RPCs_svc_unknown (s : spec) (pkgName svcName : Str) (hp : pkgName ≠ [])
    (hg : s.svcDescs.get pkgName ≠ none) (hs : svcName ≠ [])
    (hd : s.rpcDescs.get (fqsnOf pkgName svcName) = none) :
    s.RPCs pkgName svcName = .err Err.ErrServiceUnknown ∧
      ∀ m, s.RPC pkgName svcName m = .error Err.ErrServiceUnknown := by
  obtain ⟨names, hn⟩ := ServiceNames_known s pkgName hp hg
  simp [spec.RPCs, spec.RPC, hn, hs, hd]

theorem RPC_RPCs_valid (s : spec) (pkgName svcName : Str) (hp : pkgName ≠ [])
    (hg : s.svcDescs.get pkgName ≠ none) (hs : svcName ≠ [])
    (hd : s.rpcDescs.get (fqsnOf pkgName svcName) ≠ none) :
    (∀ e, s.RPCs pkgName svcName ≠ .err e) ∧
      ∀ m e, s.RPC pkgName svcName m = .error e → e = Err.ErrRPCUnknown := by
  cases hd2 : s.rpcDescs.get (fqsnOf pkgName svcName) with
  | none => exact absurd hd2 hd
  | some descs =>
    constructor
    · intro e
      rw [RPCs_of_valid s pkgName svcName descs hp hg hs hd2]
      exact collectRPCs_ne_err s pkgName svcName descs e
    · intro m e h
      rw [RPC_of_valid s pkgName svcName m descs hp hg hs hd2] at h
      exact findRPC_error m descs e h

/-- C4: the error of `RPCs(pkg, svc)`, and of `RPC(pkg, svc, m)` for every `m`,
follows a fixed precedence: `ErrPackageIsEmpty` if `pkg` is empty; otherwise
`ErrPackageUnknown` if `pkg` has no entry, whatever `svc` is; otherwise
`ErrServiceIsEmpty` if `svc` is empty; otherwise `ErrServiceUnknown` if
`pkg.svc` has no entry.  When `pkg` has an entry neither call fails with
`ErrPackageUnknown`; and when all four checks pass `RPCs` returns no error and
the only error of `RPC` is `ErrRPCUnknown`. -/
theorem RPCs_RPC_error_precedence (s : spec) (pkgName svcName : Str) :
    (pkgName = [] →
      s.RPCs pkgName svcName = .err Err.ErrPackageIsEmpty ∧
        ∀ m, s.RPC pkgName svcName m = .error Err.ErrPackageIsEmpty) ∧
    (pkgName ≠ [] → s.svcDescs.get pkgName = none →
      s.RPCs pkgName svcName = .err Err.ErrPackageUnknown ∧
        ∀ m, s.RPC pkgName svcName m = .error Err.ErrPackageUnknown) ∧
    (pkgName ≠ [] → s.svcDescs.get pkgName ≠ none → svcName = [] →
      s.RPCs pkgName svcName = .err Err.ErrServiceIsEmpty ∧
        ∀ m, s.RPC pkgName svcName m = .error Err.ErrServiceIsEmpty) ∧
    (pkgName ≠ [] → s.svcDescs.get pkgName ≠ none → svcName ≠ [] →
      s.rpcDescs.get (fqsnOf pkgName svcName) = none →
      s.RPCs pkgName svcName = .err Err.ErrServiceUnknown ∧
        ∀ m, s.RPC pkgName svcName m = .error Err.ErrServiceUnknown) ∧
    (s.svcDescs.get pkgName ≠ none →
      s.RPCs pkgName svcName ≠ .err Err.ErrPackageUnknown ∧
        ∀ m, s.RPC pkgName svcName m ≠ .error Err.ErrPackageUnknown) ∧
    (pkgName ≠ [] → s.svcDescs.get pkgName ≠ none → svcName ≠ [] →
      s.rpcDescs.get (fqsnOf pkgName svcName) ≠ none →
      (∀ e, s.RPCs pkgName svcName ≠ .err e) ∧
        ∀ m e, s.RPC pkgName svcName m = .error e → e = Err.ErrRPCUnknown) := by
  refine ⟨?_, RPC_RPCs_pkg_unknown s pkgName svcName, ?_,
    RPC_RPCs_svc_unknown s pkgName svcName, ?_, RPC_RPCs_valid s pkgName svcName⟩
  · intro hp
    subst hp
    exact RPC_RPCs_pkg_empty s svcName
  · intro hp hg hs
    subst hs
    exact RPC_RPCs_svc_empty s pkgName hp hg
  · intro hg
    by_cases hp : pkgName = []
    · subst hp
      obtain ⟨h1, h2⟩ := RPC_RPCs_pkg_empty s svcName
      refine ⟨by rw [h1]; simp, fun m => by rw [h2 m]; simp⟩
    · by_cases hs : svcName = []
      · subst hs
        obtain ⟨h1, h2⟩ := RPC_RPCs_svc_empty s pkgName hp hg
        refine ⟨by rw [h1]; simp, fun m => by rw [h2 m]; simp⟩
      · by_cases hd : s.rpcDescs.get (fqsnOf pkgName svcName) = none
        · obtain ⟨h1, h2⟩ := RPC_RPCs_svc_unknown s pkgName svcName hp hg hs hd
          refine ⟨by rw [h1]; simp, fun m => by rw [h2 m]; simp⟩
        · obtain ⟨h1, h2⟩ := RPC_RPCs_valid s pkgName svcName hp hg hs hd
          refine ⟨h1 _, fun m h => ?_⟩
          have := h2 m _ h
          simp at this

/-- The witness of C4: in the example index, the unknown service `Nope` under
the known package `demo`, the unknown package `nosuch`, and the empty service
name under `demo`. -/
theorem RPCs_RPC_error_precedence_witness :
    ("demo".toList ≠ [] ∧ demoIndex.svcDescs.get "demo".toList ≠ none ∧ "Nope".toList ≠ [] ∧
      demoIndex.rpcDescs.get (fqsnOf "demo".toList "Nope".toList) = none ∧
      demoIndex.RPCs "demo".toList "Nope".toList = .err Err.ErrServiceUnknown ∧
      ∀ m, demoIndex.RPC "demo".toList "Nope".toList m = .error Err.ErrServiceUnknown) ∧
    ("nosuch".toList ≠ [] ∧ demoIndex.svcDescs.get "nosuch".toList = none ∧
      demoIndex.RPCs "nosuch".toList "Greeter".toList = .err Err.ErrPackageUnknown ∧
      ∀ m, demoIndex.RPC "nosuch".toList "Greeter".toList m = .error Err.ErrPackageUnknown) ∧
    (demoIndex.RPCs "demo".toList [] = .err Err.ErrServiceIsEmpty ∧
      ∀ m, demoIndex.RPC "demo".toList [] m = .error Err.ErrServiceIsEmpty) ∧
    (demoIndex.RPCs [] "Greeter".toList = .err Err.ErrPackageIsEmpty ∧
      ∀ m, demoIndex.RPC [] "Greeter".toList m = .error Err.ErrPackageIsEmpty) :=
  ⟨⟨by decide, by decide, by decide, by decide,
      (RPCs_RPC_error_precedence demoIndex "demo".toList "Nope".toList).2.2.2.1
        (by decide) (by decide) (by decide) (by decide)⟩,
    ⟨by decide, by decide,
      (RPCs_RPC_error_precedence demoIndex "nosuch".toList "Greeter".toList).2.1
        (by decide) (by decide)⟩,
    (RPCs_RPC_error_precedence demoIndex "demo".toList []).2.2.1
      (by decide) (by decide) rfl,
    (RPCs_RPC_error_precedence demoIndex [] "Greeter".toList).1 rfl⟩

theorem findRPC_eq_error_iff (rpcName : Str) (descs : List MethodDescriptor) :
    findRPC rpcName descs = .error Err.ErrRPCUnknown ↔ ∀ d ∈ descs, d.GetName ≠ rpcName := by
  induction descs with
  | nil => simp [findRPC]
  | cons d rest ih =>
    by_cases hn : d.GetName = rpcName
    · simp [findRPC, hn]
    · simp [findRPC, hn, ih]

/-- The search loop skips the descriptors of another name. -/
theorem findRPC_skip (rpcName : Str) (before rest : List MethodDescriptor)
    (hb : ∀ x ∈ before, x.GetName ≠ rpcName) :
    findRPC rpcName (before ++ rest) = findRPC rpcName rest := by
  induction before with
  | nil => rfl
  | cons x xs ih =>
    have hx : x.GetName ≠ rpcName := hb x (by simp)
    rw [List.cons_append, findRPC, if_neg hx]
    exact ih (fun y hy => hb y (by simp [hy]))

theorem findRPC_first (rpcName : Str) (before after : List MethodDescriptor)
    (d : MethodDescriptor) (hb : ∀ x ∈ before, x.GetName ≠ rpcName)
    (hd : d.GetName = rpcName) :
    findRPC rpcName (before ++ d :: after) = .ok (rpcOf d) := by
  rw [findRPC_skip rpcName before _ hb, findRPC, if_pos hd]

/-- A list holding a descriptor of a name has a first descriptor of that name. -/
theorem exists_first_named (rpcName : Str) (descs : List MethodDescriptor)
    (h : ∃ d ∈ descs, d.GetName = rpcName) :
    ∃ before d after, descs = before ++ d :: after ∧
      (∀ x ∈ before, x.GetName ≠ rpcName) ∧ d.GetName = rpcName := by
  induction descs with
  | nil => simp at h
  | cons x xs ih =>
    by_cases hx : x.GetName = rpcName
    · exact ⟨[], x, xs, rfl, by simp, hx⟩
    · have h2 : ∃ d ∈ xs, d.GetName = rpcName := by
        obtain ⟨d, hd, hn⟩ := h
        rcases List.mem_cons.1 hd with e | hm
        · exact absurd (e ▸ hn) hx
        · exact ⟨d, hm, hn⟩
      obtain ⟨before, d, after, he, hb, hd⟩ := ih h2
      refine ⟨x :: before, d, after, by rw [he]; rfl, ?_, hd⟩
      intro y hy
      rcases List.mem_cons.1 hy with e | hm
      · exact e ▸ hx
      · exact hb y hm

/-- C5: for `pkg` and `svc` that pass package and service validation, with
`descs` the method descriptors stored under `pkg.svc`: `RPC(pkg, svc, m)` fails
with `ErrRPCUnknown` if and only if no descriptor of `descs` has a name equal to
`m`; otherwise it succeeds, and what it returns is the view of the first
descriptor of that name in the order of `descs`: its `Name` is `m`, and its
fully-qualified name, request and response type names and streaming flags are
those of that descriptor. -/
theorem RPC_lookup (s : spec) (pkgName svcName rpcName : Str)
    (descs : List MethodDescriptor) (hp : pkgName ≠ [])
    (hg : s.svcDescs.get pkgName ≠ none) (hs : svcName ≠ [])
    (hd : s.rpcDescs.get (fqsnOf pkgName svcName) = some descs) :
    (s.RPC pkgName svcName rpcName = .error Err.ErrRPCUnknown
      ↔ ∀ d ∈ descs, d.GetName ≠ rpcName) ∧
    ((∃ d ∈ descs, d.GetName = rpcName) → ∃ r, s.RPC pkgName svcName rpcName = .ok r) ∧
    (∀ (before after : List MethodDescriptor) (d : MethodDescriptor),
      descs = before ++ d :: after → (∀ x ∈ before, x.GetName ≠ rpcName) →
      d.GetName = rpcName →
      ∃ r, s.RPC pkgName svcName rpcName = .ok r ∧ r.Name = rpcName ∧
        r.FullyQualifiedName = d.GetFullyQualifiedName ∧
        r.RequestType.Name = d.GetInputType.GetName ∧
        r.RequestType.FullyQualifiedName = d.GetInputType.GetFullyQualifiedName ∧
        r.RequestType.New = d.GetInputType ∧
        r.ResponseType.Name = d.GetOutputType.GetName ∧
        r.ResponseType.FullyQualifiedName = d.GetOutputType.GetFullyQualifiedName ∧
        r.ResponseType.New = d.GetOutputType ∧
        r.IsServerStreaming = d.IsServerStreaming ∧
        r.IsClientStreaming = d.IsClientStreaming) := by
  rw [RPC_of_valid s pkgName svcName rpcName descs hp hg hs hd]
  refine ⟨findRPC_eq_error_iff rpcName descs, ?_, ?_⟩
  · intro h
    obtain ⟨before, d, after, he, hb, hn⟩ := exists_first_named rpcName descs h
    exact ⟨rpcOf d, by rw [he, findRPC_first rpcName before after d hb hn]⟩
  · intro before after d he hb hn
    refine ⟨rpcOf d, by rw [he, findRPC_first rpcName before after d hb hn], hn,
      rfl, rfl, rfl, rfl, rfl, rfl, rfl, rfl, rfl⟩

/-- The witness of C5: `SayHelloAgain`, the second method of `demo.Greeter`. -/
theorem RPC_lookup_witness :
    "demo".toList ≠ [] ∧ demoIndex.svcDescs.get "demo".toList ≠ none ∧
      "Greeter".toList ≠ [] ∧
      demoIndex.rpcDescs.get (fqsnOf "demo".toList "Greeter".toList)
        = some [sayHello, sayHelloAgain] ∧
      (∃ d ∈ [sayHello, sayHelloAgain], d.GetName = "SayHelloAgain".toList) ∧
      ∃ r, demoIndex.RPC "demo".toList "Greeter".toList "SayHelloAgain".toList = .ok r :=
  ⟨by decide, by decide, by decide, by decide, by decide,
    (RPC_lookup demoIndex "demo".toList "Greeter".toList "SayHelloAgain".toList
      [sayHello, sayHelloAgain] (by decide) (by decide) (by decide) (by decide)).2.1
      (by decide)⟩

/-! ## The schema index: methods by service -/

theorem addServices_getSlice (fqsn : Str) (sds : List ServiceDescriptor) :
    ∀ m : GoMap (List MethodDescriptor),
      (addServices m sds).getSlice fqsn = m.getSlice fqsn ++ methodsUnder fqsn sds := by
  induction sds with
  | nil => intro m; simp [addServices, methodsUnder]
  | cons sd rest ih =>
    intro m
    rw [addServices, ih, GoMap.getSlice_set, methodsUnder]
    by_cases h : sd.GetFullyQualifiedName = fqsn
    · subst h
      simp
    · have h2 : ¬ fqsn = sd.GetFullyQualifiedName := fun e => h e.symm
      simp [h, h2]

theorem rpcDescs_aggregateFrom_getSlice (fqsn : Str) (ds : List FileDescriptor) :
    ∀ s : spec, (aggregateFrom s ds).rpcDescs.getSlice fqsn
      = s.rpcDescs.getSlice fqsn ++ declaredMethods fqsn ds := by
  induction ds with
  | nil => intro s; simp [aggregateFrom, declaredMethods]
  | cons d rest ih =>
    intro s
    rw [aggregateFrom, ih]
    simp [addDescriptor, addServices_getSlice, declaredMethods]

/-- The methods stored under a key by the aggregation. -/
theorem rpcDescs_aggregate_get (fqsn : Str) (ds : List FileDescriptor)
    (descs : List MethodDescriptor) (h : (aggregate ds).rpcDescs.get fqsn = some descs) :
    descs = declaredMethods fqsn ds := by
  have h1 := rpcDescs_aggregateFrom_getSlice fqsn ds spec.empty
  have h2 : (aggregate ds).rpcDescs.getSlice fqsn = descs := by simp [GoMap.getSlice, h]
  have h3 : spec.empty.rpcDescs.getSlice fqsn = [] := rfl
  rw [aggregate] at h2
  rw [h2, h3] at h1
  simpa using h1

theorem mem_methodsUnder (fqsn : Str) (sds : List ServiceDescriptor) (md : MethodDescriptor)
    (h : md ∈ methodsUnder fqsn sds) :
    ∃ sd ∈ sds, sd.GetFullyQualifiedName = fqsn ∧ md ∈ sd.GetMethods := by
  induction sds with
  | nil => simp [methodsUnder] at h
  | cons sd rest ih =>
    rw [methodsUnder] at h
    by_cases hk : sd.GetFullyQualifiedName = fqsn
    · rw [if_pos hk] at h
      rcases List.mem_append.1 h with h1 | h1
      · exact ⟨sd, by simp, hk, h1⟩
      · obtain ⟨sd2, hm, hf, hmd⟩ := ih h1
        exact ⟨sd2, by simp [hm], hf, hmd⟩
    · rw [if_neg hk] at h
      obtain ⟨sd2, hm, hf, hmd⟩ := ih h
      exact ⟨sd2, by simp [hm], hf, hmd⟩

theorem mem_declaredMethods (fqsn : Str) (ds : List FileDescriptor) (md : MethodDescriptor)
    (h : md ∈ declaredMethods fqsn ds) :
    ∃ f ∈ ds, ∃ sd ∈ f.GetServices, sd.GetFullyQualifiedName = fqsn ∧ md ∈ sd.GetMethods := by
  induction ds with
  | nil => simp [declaredMethods] at h
  | cons f rest ih =>
    rw [declaredMethods] at h
    rcases List.mem_append.1 h with h1 | h1
    · exact ⟨f, by simp, mem_methodsUnder fqsn _ md h1⟩
    · obtain ⟨f2, hm, hx⟩ := ih h1
      exact ⟨f2, by simp [hm], hx⟩

theorem findRPC_ok (rpcName : Str) (descs : List MethodDescriptor) (r : RPC)
    (h : findRPC rpcName descs = .ok r) :
    ∃ d ∈ descs, d.GetName = rpcName ∧ r = rpcOf d := by
  induction descs with
  | nil => simp [findRPC] at h
  | cons d rest ih =>
    by_cases hn : d.GetName = rpcName
    · rw [findRPC, if_pos hn] at h
      exact ⟨d, by simp, hn, (Except.ok.inj h).symm⟩
    · rw [findRPC, if_neg hn] at h
      obtain ⟨d2, hm, h2⟩ := ih h
      exact ⟨d2, by simp [hm], h2⟩

/-- A successful `RPC` found its result among the methods stored under `pkg.svc`. -/
theorem RPC_ok_inv (s : spec) (pkgName svcName rpcName : Str) (r : RPC)
    (h : s.RPC pkgName svcName rpcName = .ok r) :
    ∃ descs, s.rpcDescs.get (fqsnOf pkgName svcName) = some descs ∧
      findRPC rpcName descs = .ok r := by
  unfold spec.RPC at h
  cases hn : s.ServiceNames pkgName with
  | error e => simp [hn] at h
  | ok names =>
    by_cases hs : svcName = []
    · simp [hn, hs] at h
    · cases hd : s.rpcDescs.get (fqsnOf pkgName svcName) with
      | none => simp [hn, hs, hd] at h
      | some descs =>
        simp only [hn, hs, hd, if_false] at h
        exact ⟨descs, rfl, h⟩

/-- C6: for the index built from descriptors in which every method has the
fully-qualified name `<service fqn>.<method>` and a name without `.`, and every
`pkg`, `svc`, `m` for which `RPC(pkg, svc, m)` succeeds,
`fullQualifiedRPCNameToMethod` of the returned `FullyQualifiedName` does not
fail and is `/` + pkg + `.` + svc + `/` + m. -/
theorem wire_path_of_RPC (descriptors : List FileDescriptor) (pkgName svcName rpcName : Str)
    (r : RPC)
    (hwf : ∀ f ∈ descriptors, ∀ sd ∈ f.GetServices, ∀ md ∈ sd.GetMethods,
      md.GetFullyQualifiedName = sd.GetFullyQualifiedName ++ '.' :: md.GetName ∧
        '.' ∉ md.GetName)
    (h : (aggregate descriptors).RPC pkgName svcName rpcName = .ok r) :
    fullQualifiedRPCNameToMethod r.FullyQualifiedName
      = .ok ('/' :: pkgName ++ '.' :: svcName ++ '/' :: rpcName) := by
  obtain ⟨descs, hd, hf⟩ := RPC_ok_inv _ pkgName svcName rpcName r h
  obtain ⟨d, hmem, hn, hr⟩ := findRPC_ok rpcName descs r hf
  rw [rpcDescs_aggregate_get _ descriptors descs hd] at hmem
  obtain ⟨f, hfm, sd, hsd, hk, hmd⟩ := mem_declaredMethods _ descriptors d hmem
  obtain ⟨h1, h2⟩ := hwf f hfm sd hsd d hmd
  have h3 : r.FullyQualifiedName = fqsnOf pkgName svcName ++ '.' :: rpcName := by
    rw [hr, ← hn, ← hk]
    exact h1
  rw [h3, wire_of_service_method (fqsnOf pkgName svcName) rpcName (by simp [fqsnOf])
    (hn ▸ h2)]
  simp [fqsnOf]

/-- The witness of C6: package `demo`, service `Greeter`, method `SayHello` is
invoked at `/demo.Greeter/SayHello`. -/
theorem wire_path_of_RPC_witness :
    (∀ f ∈ demoFiles, ∀ sd ∈ f.GetServices, ∀ md ∈ sd.GetMethods,
      md.GetFullyQualifiedName = sd.GetFullyQualifiedName ++ '.' :: md.GetName ∧
        '.' ∉ md.GetName) ∧
      (aggregate demoFiles).RPC "demo".toList "Greeter".toList "SayHello".toList
        = .ok (rpcOf sayHello) ∧
      fullQualifiedRPCNameToMethod (rpcOf sayHello).FullyQualifiedName
        = .ok "/demo.Greeter/SayHello".toList :=
  ⟨by decide, by decide,
    wire_path_of_RPC demoFiles "demo".toList "Greeter".toList "SayHello".toList
      (rpcOf sayHello) (by decide) (by decide)⟩

/-! ## The interactive session -/

theorem nameExists_iff (arg : Str) (names : List Str) :
    nameExists arg names = true ↔ arg ∈ names := by
  induction names with
  | nil => simp [nameExists]
  | cons n rest ih =>
    by_cases h : n = arg
    · simp [nameExists, h]
    · have h2 : ¬ arg = n := fun e => h e.symm
      simp [nameExists, h, h2, ih]

theorem nameExists_eq_false (arg : Str) (names : List Str) (h : arg ∉ names) :
    nameExists arg names = false := by
  cases hb : nameExists arg names with
  | false => rfl
  | true => exact absurd ((nameExists_iff arg names).1 hb) h

/-- A format without `%` and without operands is written as it is. -/
theorem Sprintf_of_not_mem (t : Str) (h : '%' ∉ t) : Sprintf t [] = some t := by
  induction t with
  | nil => rfl
  | cons c rest ih =>
    have hc : c ≠ '%' := fun e => h (by simp [e])
    have hr : '%' ∉ rest := fun e => h (by simp [e])
    rw [Sprintf.eq_def]
    simp [hc, ih hr]

/-- The text `Errorf` writes for an unknown package name without `%`. -/
theorem Errorf_unknown_package (name : Str) (h : '%' ∉ name) :
    cliConfig.Errorf ("unknown package name ".toList ++ Char.ofNat 34 :: "%s".toList
        ++ [Char.ofNat 34]) [Arg.str name]
      = some ("\x1b[31munknown package name ".toList ++ Char.ofNat 34 :: name
          ++ Char.ofNat 34 :: "\x1b[39m\n".toList) := by
  have h1 : Sprintf ("unknown package name ".toList ++ Char.ofNat 34 :: "%s".toList
        ++ [Char.ofNat 34]) [Arg.str name]
      = some ("unknown package name ".toList ++ Char.ofNat 34 :: name ++ [Char.ofNat 34]) := by
    simp [Sprintf, isDirectiveModifier]
  have h2 : ∀ msg : Str, Sprintf "\x1b[31m%s\x1b[39m\n".toList [Arg.str msg]
      = some ("\x1b[31m".toList ++ msg ++ "\x1b[39m\n".toList) := by
    intro msg
    simp [Sprintf, isDirectiveModifier]
  have h3 : '%' ∉ "\x1b[31m".toList
      ++ ("unknown package name ".toList ++ Char.ofNat 34 :: name ++ [Char.ofNat 34])
      ++ "\x1b[39m\n".toList := by
    simp [h]
  simp only [cliConfig.Errorf, h1, h2, Sprintf_of_not_mem _ h3]
  simp

/-- What `package <name>` does to the session: for an argument `name` that is
not among `PackageNames()` the whole session context is unchanged (current
package, current service, headers, host and port) and `Errorf` is called with
the format `unknown package name "%s"` and the operand `name`, which writes
`unknown package name "<name>"` between the colour codes when `name` holds no
`%`; when `name` is among `PackageNames()` the current package becomes `name`
and nothing else changes; so the current package changes only when `name` is in
`PackageNames()`. -/
theorem getOrSetPackage_frame (env : Env) (c : cliConfig) (name : Str) (rest : List Str) :
    dispatch env c ("package".toList :: name :: rest) = c.getOrSetPackage (name :: rest) ∧
    (name ∉ c.spec.PackageNames →
      (c.getOrSetPackage (name :: rest)).1 = c ∧
      (c.getOrSetPackage (name :: rest)).2
        = Event.Errorf ("unknown package name ".toList ++ Char.ofNat 34 :: "%s".toList
            ++ [Char.ofNat 34]) [Arg.str name] :: c.updPrompt ∧
      ('%' ∉ name →
        (Event.Errorf ("unknown package name ".toList ++ Char.ofNat 34 :: "%s".toList
            ++ [Char.ofNat 34]) [Arg.str name]).written
          = some ("\x1b[31munknown package name ".toList ++ Char.ofNat 34 :: name
              ++ Char.ofNat 34 :: "\x1b[39m\n".toList))) ∧
    (name ∈ c.spec.PackageNames →
      (c.getOrSetPackage (name :: rest)).1
        = { c with
            appCfg := { c.appCfg with Default := { c.appCfg.Default with Package := name } } } ∧
      ∀ ev ∈ (c.getOrSetPackage (name :: rest)).2, ∀ format args,
        ev ≠ Event.Errorf format args) ∧
    ((c.getOrSetPackage (name :: rest)).1.appCfg.Default.Package ≠ c.appCfg.Default.Package →
      name ∈ c.spec.PackageNames ∧
        (c.getOrSetPackage (name :: rest)).1.appCfg.Default.Package = name) := by
  refine ⟨by simp [dispatch], ?_, ?_, ?_⟩
  · intro h
    have hb := nameExists_eq_false name _ h
    refine ⟨by simp [cliConfig.getOrSetPackage, hb], by simp [cliConfig.getOrSetPackage, hb],
      fun hn => ?_⟩
    rw [Event.written]
    exact Errorf_unknown_package name hn
  · intro h
    have hb := (nameExists_iff name _).2 h
    simp only [cliConfig.getOrSetPackage, hb]
    refine ⟨rfl, ?_⟩
    intro ev hev format args
    simp only [Bool.not_true, Bool.false_eq_true, if_false, List.mem_cons] at hev
    rcases hev with rfl | hev
    · simp
    · unfold cliConfig.updPrompt at hev
      split_ifs at hev <;> simp at hev <;> simp [hev]
  · intro hne
    by_cases h : name ∈ c.spec.PackageNames
    · have hb := (nameExists_iff name _).2 h
      exact ⟨h, by simp [cliConfig.getOrSetPackage, hb]⟩
    · have hb := nameExists_eq_false name _ h
      simp [cliConfig.getOrSetPackage, hb] at hne

/-- The command `package nosuch` at the start of the example session. -/
theorem getOrSetPackage_frame_witness :
    "nosuch".toList ∉ demoSession.spec.PackageNames ∧ '%' ∉ "nosuch".toList ∧
      (demoSession.getOrSetPackage ["nosuch".toList]).1 = demoSession ∧
      (demoSession.getOrSetPackage ["nosuch".toList]).2
        = Event.Errorf ("unknown package name ".toList ++ Char.ofNat 34 :: "%s".toList
            ++ [Char.ofNat 34]) [Arg.str "nosuch".toList] :: demoSession.updPrompt ∧
      (Event.Errorf ("unknown package name ".toList ++ Char.ofNat 34 :: "%s".toList
          ++ [Char.ofNat 34]) [Arg.str "nosuch".toList]).written
        = some ("\x1b[31munknown package name ".toList ++ Char.ofNat 34 :: "nosuch".toList
            ++ Char.ofNat 34 :: "\x1b[39m\n".toList) :=
  ⟨by decide, by decide,
    ((getOrSetPackage_frame demoEnv demoSession "nosuch".toList []).2.1 (by decide)).1,
    ((getOrSetPackage_frame demoEnv demoSession "nosuch".toList []).2.1 (by decide)).2.1,
    ((getOrSetPackage_frame demoEnv demoSession "nosuch".toList []).2.1 (by decide)).2.2
      (by decide)⟩

/-- C7: the code at the input `package a%sb`, at the start of the example
session.  The argument is not a package name, the session context is left as it
was and `Errorf` is called with the format `unknown package name "%s"` and the
operand `a%sb`; but `Errorf` hands the formatted message to `fmt.Fprintf` as a
format, so the text written is `unknown package name "a%!s(MISSING)b"` between
the colour codes, not `unknown package name "a%sb"`.  `PrintJSON` writes its
text through the format `%s\n` and does not change it. -/
theorem getOrSetPackage_report_mangled :
    "a%sb".toList ∉ demoSession.spec.PackageNames ∧
    dispatch demoEnv demoSession ["package".toList, "a%sb".toList]
      = (demoSession,
          [Event.Errorf ("unknown package name ".toList ++ Char.ofNat 34 :: "%s".toList
            ++ [Char.ofNat 34]) [Arg.str "a%sb".toList]]) ∧
    Sprintf ("unknown package name ".toList ++ Char.ofNat 34 :: "%s".toList
        ++ [Char.ofNat 34]) [Arg.str "a%sb".toList]
      = some ("unknown package name ".toList ++ Char.ofNat 34 :: "a%sb".toList
          ++ [Char.ofNat 34]) ∧
    (Event.Errorf ("unknown package name ".toList ++ Char.ofNat 34 :: "%s".toList
        ++ [Char.ofNat 34]) [Arg.str "a%sb".toList]).written
      = some ("\x1b[31munknown package name ".toList ++ Char.ofNat 34 ::
          "a%!s(MISSING)b".toList ++ Char.ofNat 34 :: "\x1b[39m\n".toList) ∧
    (Event.Errorf ("unknown package name ".toList ++ Char.ofNat 34 :: "%s".toList
        ++ [Char.ofNat 34]) [Arg.str "a%sb".toList]).written
      ≠ some ("\x1b[31munknown package name ".toList ++ Char.ofNat 34 ::
          "a%sb".toList ++ Char.ofNat 34 :: "\x1b[39m\n".toList) ∧
    (PrintJSON demoEnv ⟨helloRequest, "a%sb".toList⟩).2 = [Event.Print "a%sb\n".toList] ∧
    (Event.Print "a%sb\n".toList).written = some "a%sb\n".toList := by
  refine ⟨by decide, by decide, by decide, by decide, by decide, by decide, by decide⟩

/-- C8: for every session context and every argument `name`, after the command
`service <name>` the current service is `name` and nothing else of the context
has changed (current package, headers, host and port), also when validation
fails: when `ServiceNames(currentPackage)` fails, its error and then
`unknown service name "<name>"` are reported; when it succeeds and `name` is
not among the names, `unknown service name "<name>"` is reported; when `name`
is among them no error is reported. -/
theorem getOrSetService_overwrites (env : Env) (c : cliConfig) (name : Str)
    (rest : List Str) :
    dispatch env c ("service".toList :: name :: rest) = c.getOrSetService (name :: rest) ∧
    (c.getOrSetService (name :: rest)).1
      = { c with
          appCfg := { c.appCfg with Default := { c.appCfg.Default with Service := name } } } ∧
    (c.getOrSetService (name :: rest)).1.appCfg.Default.Service = name ∧
    (c.getOrSetService (name :: rest)).1.appCfg.Default.Package = c.appCfg.Default.Package ∧
    (c.getOrSetService (name :: rest)).1.headers = c.headers ∧
    (c.getOrSetService (name :: rest)).1.appCfg.Server = c.appCfg.Server ∧
    (∀ e, c.spec.ServiceNames c.appCfg.Default.Package = .error e →
      (c.getOrSetService (name :: rest)).2
        = Event.Errorf e.Error [] ::
          Event.Errorf ("unknown service name ".toList ++ Char.ofNat 34 :: "%s".toList
            ++ [Char.ofNat 34]) [Arg.str name] ::
          Event.Infof name [] :: (c.getOrSetService (name :: rest)).1.updPrompt) ∧
    (∀ names, c.spec.ServiceNames c.appCfg.Default.Package = .ok names → name ∉ names →
      (c.getOrSetService (name :: rest)).2
        = Event.Errorf ("unknown service name ".toList ++ Char.ofNat 34 :: "%s".toList
            ++ [Char.ofNat 34]) [Arg.str name] ::
          Event.Infof name [] :: (c.getOrSetService (name :: rest)).1.updPrompt) ∧
    (∀ names, c.spec.ServiceNames c.appCfg.Default.Package = .ok names → name ∈ names →
      (c.getOrSetService (name :: rest)).2
        = Event.Infof name [] :: (c.getOrSetService (name :: rest)).1.updPrompt) ∧
    (c.appCfg.Default.Package = [] →
      c.spec.ServiceNames c.appCfg.Default.Package = .error Err.ErrPackageIsEmpty) ∧
    (c.appCfg.Default.Package ≠ [] → c.spec.svcDescs.get c.appCfg.Default.Package = none →
      c.spec.ServiceNames c.appCfg.Default.Package = .error Err.ErrPackageUnknown) := by
  refine ⟨by simp [dispatch], rfl, rfl, rfl, rfl, rfl, ?_, ?_, ?_, ?_, ?_⟩
  · intro e he
    simp [cliConfig.getOrSetService, he, nameExists]
  · intro names he hn
    have hb := nameExists_eq_false name _ hn
    simp [cliConfig.getOrSetService, he, hb]
  · intro names he hn
    have hb := (nameExists_iff name _).2 hn
    simp [cliConfig.getOrSetService, he, hb]
  · intro hp
    rw [hp]
    exact ServiceNames_empty c.spec
  · intro hp hg
    exact ServiceNames_unknown c.spec _ hp hg

/-- The witness of C8: `service Nope` at the start of the example session, where
the current package is the unknown `nil`, and `service Nope` under the package
`demo`. -/
theorem getOrSetService_overwrites_witness :
    (demoSession.spec.ServiceNames demoSession.appCfg.Default.Package
        = .error Err.ErrPackageUnknown ∧
      (demoSession.getOrSetService ["Nope".toList]).1.appCfg.Default.Service = "Nope".toList ∧
      (demoSession.getOrSetService ["Nope".toList]).2
        = Event.Errorf Err.ErrPackageUnknown.Error [] ::
          Event.Errorf ("unknown service name ".toList ++ Char.ofNat 34 :: "%s".toList
            ++ [Char.ofNat 34]) [Arg.str "Nope".toList] ::
          Event.Infof "Nope".toList [] ::
            (demoSession.getOrSetService ["Nope".toList]).1.updPrompt) ∧
    (greeterSession.spec.ServiceNames greeterSession.appCfg.Default.Package
        = .ok ["Greeter".toList, "Admin".toList] ∧
      "Nope".toList ∉ ["Greeter".toList, "Admin".toList] ∧
      (greeterSession.getOrSetService ["Nope".toList]).2
        = Event.Errorf ("unknown service name ".toList ++ Char.ofNat 34 :: "%s".toList
            ++ [Char.ofNat 34]) [Arg.str "Nope".toList] ::
          Event.Infof "Nope".toList [] ::
            (greeterSession.getOrSetService ["Nope".toList]).1.updPrompt) :=
  ⟨⟨by decide, by decide,
      (getOrSetService_overwrites demoEnv demoSession "Nope".toList []).2.2.2.2.2.2.1
        Err.ErrPackageUnknown (by decide)⟩,
    ⟨by decide, by decide,
      (getOrSetService_overwrites demoEnv greeterSession "Nope".toList []).2.2.2.2.2.2.2.1
        ["Greeter".toList, "Admin".toList] (by decide) (by decide)⟩⟩

theorem filter_ne_set_entries {V : Type} (m : GoMap V) (k : Str) (v : V) :
    (m.set k v).entries.filter (fun e => !decide (e.1 = k))
      = m.entries.filter (fun e => !decide (e.1 = k)) := by
  simp [GoMap.set, List.filter_append]

theorem filter_eq_set_entries {V : Type} (m : GoMap V) (k : Str) (v : V) :
    (m.set k v).entries.filter (fun e => decide (e.1 = k)) = [(k, v)] := by
  simp only [GoMap.set, List.filter_append, List.filter_filter]
  simp

/-- Assigning twice to a key is assigning the second value. -/
theorem GoMap.set_set {V : Type} (m : GoMap V) (k : Str) (v1 v2 : V) :
    (m.set k v1).set k v2 = m.set k v2 := by
  simp [GoMap.set, List.filter_append]

/-- What `set header X v...` does to the session, for a value of at least one token. -/
theorem setServerProps_header (c : cliConfig) (X : Str) (v : List Str) (hv : v ≠ []) :
    (c.setServerProps ("header".toList :: X :: v)).1
      = { c with headers := some ((headerMap c.headers).set X (Join v [' '])) } := by
  cases v with
  | nil => exact absurd rfl hv
  | cons t ts => simp [cliConfig.setServerProps, lineDelimiter]

/-- C9: for every session context, header name `X` and non-empty value token
lists `v1` and `v2`, running `set header X v1` and then `set header X v2` leaves
the header mapping with exactly one entry for `X`, whose value is the tokens of
`v2` joined by single spaces, and leaves every other header entry of the
session it started from, the host, the port, the current package and the
current service unchanged: when the session held the header mapping `h0`, the
entries of other names are those of `h0`, in the same order, and every other
name reads as in `h0`; when it held the nil mapping, the entry for `X` is the
only one.  Running the same command a second time changes nothing. -/
theorem set_header_last_write_wins (env : Env) (c : cliConfig) (X : Str) (v1 v2 : List Str)
    (h1 : v1 ≠ []) (h2 : v2 ≠ []) :
    dispatch env c ("set".toList :: "header".toList :: X :: v1)
      = c.setServerProps ("header".toList :: X :: v1) ∧
    (∃ h : GoMap Str,
      ((c.setServerProps ("header".toList :: X :: v1)).1.setServerProps
        ("header".toList :: X :: v2)).1.headers = some h ∧
      h.entries.filter (fun e => decide (e.1 = X)) = [(X, Join v2 [' '])] ∧
      h.get X = some (Join v2 [' ']) ∧
      (∀ h0 : GoMap Str, c.headers = some h0 →
        h.entries.filter (fun e => !decide (e.1 = X))
            = h0.entries.filter (fun e => !decide (e.1 = X)) ∧
          ∀ Y, Y ≠ X → h.get Y = h0.get Y) ∧
      (c.headers = none → h.entries = [(X, Join v2 [' '])] ∧ ∀ Y, Y ≠ X → h.get Y = none)) ∧
    ((c.setServerProps ("header".toList :: X :: v1)).1.setServerProps
      ("header".toList :: X :: v2)).1.appCfg = c.appCfg ∧
    ((c.setServerProps ("header".toList :: X :: v1)).1.setServerProps
      ("header".toList :: X :: v2)).1.spec = c.spec ∧
    ((c.setServerProps ("header".toList :: X :: v1)).1.setServerProps
      ("header".toList :: X :: v1)).1 = (c.setServerProps ("header".toList :: X :: v1)).1 := by
  rw [setServerProps_header _ X v2 h2, setServerProps_header c X v1 h1,
    setServerProps_header _ X v1 h1]
  refine ⟨by simp [dispatch], ⟨_, rfl, ?_, ?_, ?_, ?_⟩, rfl, rfl, ?_⟩
  · simp only [headerMap, GoMap.set_set]
    exact filter_eq_set_entries _ X _
  · simp [headerMap, GoMap.get_set]
  · intro h0 hc
    simp only [hc, headerMap, GoMap.set_set]
    refine ⟨filter_ne_set_entries _ X _, ?_⟩
    intro Y hY
    simp [GoMap.get_set, hY]
  · intro hc
    simp only [hc, headerMap, GoMap.set_set]
    refine ⟨by simp [GoMap.set, GoMap.empty], ?_⟩
    intro Y hY
    rw [GoMap.get_set, if_neg hY]
    rfl
  · simp [headerMap, GoMap.set_set]

/-- The witness of C9: `set header authorization Bearer abc` and then
`set header authorization Basic xyz 123` in a session that holds the headers
`x-trace` and `authorization`. -/
theorem set_header_last_write_wins_witness :
    ["Bearer".toList, "abc".toList] ≠ [] ∧
      ["Basic".toList, "xyz".toList, "123".toList] ≠ [] ∧
      headerSession.headers
        = some ⟨[("x-trace".toList, "1".toList), ("authorization".toList, "old".toList)]⟩ ∧
      ((headerSession.setServerProps
          ["header".toList, "authorization".toList, "Bearer".toList, "abc".toList]).1.setServerProps
        ["header".toList, "authorization".toList, "Basic".toList, "xyz".toList,
          "123".toList]).1.headers
        = some ⟨[("x-trace".toList, "1".toList),
            ("authorization".toList, "Basic xyz 123".toList)]⟩ ∧
      ∃ h : GoMap Str,
        ((headerSession.setServerProps
            ("header".toList :: "authorization".toList
              :: ["Bearer".toList, "abc".toList])).1.setServerProps
          ("header".toList :: "authorization".toList
            :: ["Basic".toList, "xyz".toList, "123".toList])).1.headers = some h ∧
        h.entries.filter (fun e => decide (e.1 = "authorization".toList))
          = [("authorization".toList, Join ["Basic".toList, "xyz".toList, "123".toList] [' '])] ∧
        h.entries.filter (fun e => !decide (e.1 = "authorization".toList))
          = [("x-trace".toList, "1".toList)] ∧
        h.get "x-trace".toList = some "1".toList := by
  refine ⟨by decide, by decide, by decide, by decide, ?_⟩
  obtain ⟨h, hh, hone, _, hframe, _⟩ :=
    (set_header_last_write_wins demoEnv headerSession "authorization".toList
      ["Bearer".toList, "abc".toList] ["Basic".toList, "xyz".toList, "123".toList]
      (by decide) (by decide)).2.1
  obtain ⟨hf, hg⟩ := hframe _ rfl
  refine ⟨h, hh, hone, ?_, ?_⟩
  · rw [hf]
    decide
  · rw [hg "x-trace".toList (by decide)]
    decide

/-- The client `call` creates: what `NewClient` does for a configuration that
only sets the address. -/
theorem NewClient_addr (env : Env) (addr : Str) :
    NewClient env
        { Addr := addr, ServerName := [], UseReflection := false, WithTLS := false,
          Certs := ⟨false, false⟩ }
      = match env.dial addr DialOption.WithInsecure with
        | some err =>
          (.error (Err.wrap err "failed to dial to gRPC server".toList),
            [Event.DialContext addr DialOption.WithInsecure])
        | none =>
          (.ok { conn := addr, headers := GoMap.empty, reflection := false },
            [Event.DialContext addr DialOption.WithInsecure]) := by
  cases h : env.dial addr DialOption.WithInsecure <;> simp [NewClient, h]

/-- The counterexample of C10: in the example session with package `demo` and
service `Greeter` selected, `call Missing x` names no method of the service,
and the call dials `localhost:50051` before it reports the failed lookup; and
where the dial fails, the error reported is the one of the dial, not
`ErrRPCUnknown`. -/
theorem call_unknown_method_dials_first :
    greeterSession.spec.rpcDescs.get
        (fqsnOf greeterSession.appCfg.Default.Package greeterSession.appCfg.Default.Service)
      = some [sayHello, sayHelloAgain] ∧
    (∀ d ∈ [sayHello, sayHelloAgain], d.GetName ≠ "Missing".toList) ∧
    greeterSession.call demoEnv ["Missing".toList, "x".toList]
      = [Event.DialContext "localhost:50051".toList DialOption.WithInsecure,
          Event.Errorf "failed to get RPC: %v".toList [Arg.err Err.ErrRPCUnknown]] ∧
    ¬ (∀ ev ∈ greeterSession.call demoEnv ["Missing".toList, "x".toList],
        ev.isNetwork = false) ∧
    greeterSession.call refusingEnv ["Missing".toList, "x".toList]
      = [Event.DialContext "localhost:50051".toList DialOption.WithInsecure,
          Event.Errorf "failed to create new client: %v".toList
            [Arg.err (Err.wrap (Err.external "connection refused".toList)
              "failed to dial to gRPC server".toList)]] := by
  refine ⟨by decide, by decide, by decide, by decide, by decide⟩

/-- C10, amended: for every session context whose current package and service
pass validation and every command `call <methodName> <body...>` with a body of
at least one token in which `methodName` is not a method of the current
(package, service), the call first creates a client, which dials the server
address without transport security.  When the dial succeeds the lookup fails
with `ErrRPCUnknown`, which is reported through `failed to get RPC: %v`; when
the dial fails the error of the dial is reported through
`failed to create new client: %v` and the method is not looked up.  In both
cases the dial is the only call made to the gRPC library: nothing is invoked on
the connection, no request is decoded or printed, and the session context is
unchanged. -/
theorem call_unknown_method (env : Env) (c : cliConfig) (methodName b : Str)
    (rest : List Str) (descs : List MethodDescriptor)
    (hp : c.appCfg.Default.Package ≠ [])
    (hg : c.spec.svcDescs.get c.appCfg.Default.Package ≠ none)
    (hs : c.appCfg.Default.Service ≠ [])
    (hd : c.spec.rpcDescs.get (fqsnOf c.appCfg.Default.Package c.appCfg.Default.Service)
      = some descs)
    (hm : ∀ d ∈ descs, d.GetName ≠ methodName) :
    dispatch env c ("call".toList :: methodName :: b :: rest)
      = (c, c.call env (methodName :: b :: rest)) ∧
    c.spec.RPC c.appCfg.Default.Package c.appCfg.Default.Service methodName
      = .error Err.ErrRPCUnknown ∧
    (env.dial c.appCfg.Server.Address DialOption.WithInsecure = none →
      c.call env (methodName :: b :: rest)
        = [Event.DialContext c.appCfg.Server.Address DialOption.WithInsecure,
            Event.Errorf "failed to get RPC: %v".toList [Arg.err Err.ErrRPCUnknown]]) ∧
    (∀ e, env.dial c.appCfg.Server.Address DialOption.WithInsecure = some e →
      c.call env (methodName :: b :: rest)
        = [Event.DialContext c.appCfg.Server.Address DialOption.WithInsecure,
            Event.Errorf "failed to create new client: %v".toList
              [Arg.err (Err.wrap e "failed to dial to gRPC server".toList)]]) ∧
    (∀ ev ∈ c.call env (methodName :: b :: rest), ev.isNetwork = true →
      ev = Event.DialContext c.appCfg.Server.Address DialOption.WithInsecure) := by
  have hr : c.spec.RPC c.appCfg.Default.Package c.appCfg.Default.Service methodName
      = .error Err.ErrRPCUnknown :=
    (RPC_of_valid c.spec _ _ methodName descs hp hg hs hd).trans
      ((findRPC_eq_error_iff methodName descs).2 hm)
  have hok : env.dial c.appCfg.Server.Address DialOption.WithInsecure = none →
      c.call env (methodName :: b :: rest)
        = [Event.DialContext c.appCfg.Server.Address DialOption.WithInsecure,
            Event.Errorf "failed to get RPC: %v".toList [Arg.err Err.ErrRPCUnknown]] := by
    intro h
    simp [cliConfig.call, NewClient_addr, h, hr]
  have hfail : ∀ e, env.dial c.appCfg.Server.Address DialOption.WithInsecure = some e →
      c.call env (methodName :: b :: rest)
        = [Event.DialContext c.appCfg.Server.Address DialOption.WithInsecure,
            Event.Errorf "failed to create new client: %v".toList
              [Arg.err (Err.wrap e "failed to dial to gRPC server".toList)]] := by
    intro e h
    simp [cliConfig.call, NewClient_addr, h]
  refine ⟨by simp [dispatch], hr, hok, hfail, ?_⟩
  intro ev hev hnet
  cases h : env.dial c.appCfg.Server.Address DialOption.WithInsecure with
  | none =>
    rw [hok h] at hev
    simp only [List.mem_cons, List.mem_singleton, List.not_mem_nil, or_false] at hev
    rcases hev with rfl | rfl
    · rfl
    · simp [Event.isNetwork] at hnet
  | some e =>
    rw [hfail e h] at hev
    simp only [List.mem_cons, List.mem_singleton, List.not_mem_nil, or_false] at hev
    rcases hev with rfl | rfl
    · rfl
    · simp [Event.isNetwork] at hnet

/-- The witness of C10, amended: `call Missing x` in the example session with
package `demo` and service `Greeter` selected, where the dial succeeds. -/
theorem call_unknown_method_witness :
    greeterSession.appCfg.Default.Package ≠ [] ∧
      greeterSession.spec.svcDescs.get greeterSession.appCfg.Default.Package ≠ none ∧
      greeterSession.appCfg.Default.Service ≠ [] ∧
      (∀ d ∈ [sayHello, sayHelloAgain], d.GetName ≠ "Missing".toList) ∧
      demoEnv.dial greeterSession.appCfg.Server.Address DialOption.WithInsecure = none ∧
      greeterSession.call demoEnv ("Missing".toList :: "x".toList :: [])
        = [Event.DialContext greeterSession.appCfg.Server.Address DialOption.WithInsecure,
            Event.Errorf "failed to get RPC: %v".toList [Arg.err Err.ErrRPCUnknown]] :=
  ⟨by decide, by decide, by decide, by decide, by decide,
    (call_unknown_method demoEnv greeterSession "Missing".toList "x".toList []
      [sayHello, sayHelloAgain] (by decide) (by decide) (by decide) (by decide)
      (by decide)).2.2.1 (by decide)⟩

/-! ## The schema index: `RPCs` does not panic -/

/-- The search loop succeeds on the name of a stored descriptor, with a result
of that name. -/
theorem findRPC_of_mem (descs : List MethodDescriptor) (d : MethodDescriptor)
    (hd : d ∈ descs) :
    ∃ r, findRPC d.GetName descs = .ok r ∧ r.Name = d.GetName := by
  obtain ⟨before, d1, after, he, hb, hn⟩ := exists_first_named d.GetName descs ⟨d, hd, rfl⟩
  exact ⟨rpcOf d1, by rw [he, findRPC_first d.GetName before after d1 hb hn], hn⟩

/-- The collecting loop returns a list when every lookup it makes succeeds. -/
theorem collectRPCs_ok (s : spec) (pkgName svcName : Str) (todo : List MethodDescriptor)
    (h : ∀ d ∈ todo, ∃ r, s.RPC pkgName svcName d.GetName = .ok r ∧ r.Name = d.GetName) :
    ∃ rpcs, collectRPCs s pkgName svcName todo = .ok rpcs ∧
      rpcs.map (fun r => r.Name) = todo.map (fun d => d.GetName) := by
  induction todo with
  | nil => exact ⟨[], rfl, rfl⟩
  | cons d rest ih =>
    obtain ⟨r, hr, hn⟩ := h d (by simp)
    obtain ⟨rpcs, hc, hm⟩ := ih (fun x hx => h x (by simp [hx]))
    refine ⟨r :: rpcs, ?_, ?_⟩
    · simp [collectRPCs, hr, hc]
    · simp [hn, hm]

/-- C12: for every index and every `pkg`, `svc` that pass validation, with
`descs` the method descriptors stored under `pkg.svc`, `RPCs(pkg, svc)` does
not reach its panic branch: each inner lookup `RPC(pkg, svc, d.GetName())`
succeeds, and `RPCs` returns a list of the length of `descs` whose i-th `Name`
is the name of the i-th descriptor. -/
theorem RPCs_no_panic (s : spec) (pkgName svcName : Str) (descs : List MethodDescriptor)
    (hp : pkgName ≠ []) (hg : s.svcDescs.get pkgName ≠ none) (hs : svcName ≠ [])
    (hd : s.rpcDescs.get (fqsnOf pkgName svcName) = some descs) :
    (∀ d ∈ descs, ∃ r, s.RPC pkgName svcName d.GetName = .ok r ∧ r.Name = d.GetName) ∧
    (∀ msg, s.RPCs pkgName svcName ≠ .panicked msg) ∧
    ∃ rpcs, s.RPCs pkgName svcName = .ok rpcs ∧ rpcs.length = descs.length ∧
      rpcs.map (fun r => r.Name) = descs.map (fun d => d.GetName) ∧
      ∀ i, (rpcs.get? i).map (fun r => r.Name) = (descs.get? i).map (fun d => d.GetName) := by
  have h1 : ∀ d ∈ descs, ∃ r, s.RPC pkgName svcName d.GetName = .ok r ∧ r.Name = d.GetName := by
    intro d hmem
    rw [RPC_of_valid s pkgName svcName d.GetName descs hp hg hs hd]
    exact findRPC_of_mem descs d hmem
  obtain ⟨rpcs, hc, hm⟩ := collectRPCs_ok s pkgName svcName descs h1
  have hr : s.RPCs pkgName svcName = .ok rpcs :=
    (RPCs_of_valid s pkgName svcName descs hp hg hs hd).trans hc
  refine ⟨h1, ?_, rpcs, hr, ?_, hm, ?_⟩
  · intro msg
    rw [hr]
    simp
  · have := congrArg List.length hm
    simpa using this
  · intro i
    have := congrArg (fun l => l.get? i) hm
    simpa using this

/-- The witness of C12: the service `demo.Greeter` of the example index. -/
theorem RPCs_no_panic_witness :
    "demo".toList ≠ [] ∧ demoIndex.svcDescs.get "demo".toList ≠ none ∧
      "Greeter".toList ≠ [] ∧
      demoIndex.rpcDescs.get (fqsnOf "demo".toList "Greeter".toList)
        = some [sayHello, sayHelloAgain] ∧
      demoIndex.RPCs "demo".toList "Greeter".toList
        = .ok [rpcOf sayHello, rpcOf sayHelloAgain] ∧
      ∃ rpcs, demoIndex.RPCs "demo".toList "Greeter".toList = .ok rpcs ∧
        rpcs.length = [sayHello, sayHelloAgain].length ∧
        rpcs.map (fun r => r.Name) = [sayHello, sayHelloAgain].map (fun d => d.GetName) ∧
        ∀ i, (rpcs.get? i).map (fun r => r.Name)
          = ([sayHello, sayHelloAgain].get? i).map (fun d => d.GetName) :=
  ⟨by decide, by decide, by decide, by decide, by decide,
    (RPCs_no_panic demoIndex "demo".toList "Greeter".toList [sayHello, sayHelloAgain]
      (by decide) (by decide) (by decide) (by decide)).2.2⟩

/-! ## The schema index: the keys of the maps -/

theorem lookupEntry_ne_none_iff {V : Type} (l : List (Str × V)) (k : Str) :
    lookupEntry l k ≠ none ↔ k ∈ l.map Prod.fst := by
  induction l with
  | nil => simp [lookupEntry]
  | cons e rest ih =>
    obtain ⟨k0, v⟩ := e
    rw [List.map_cons, List.mem_cons]
    by_cases h : k0 = k
    · rw [lookupEntry, if_pos h]
      exact ⟨fun _ => Or.inl h.symm, fun _ => Option.some_ne_none v⟩
    · rw [lookupEntry, if_neg h, ih]
      exact ⟨fun hm => Or.inr hm, fun hm => hm.elim (fun e => absurd e.symm h) id⟩

/-- A key is present exactly when a lookup finds it. -/
theorem GoMap.mem_keys_iff {V : Type} (m : GoMap V) (k : Str) :
    k ∈ m.keys ↔ m.get k ≠ none :=
  (lookupEntry_ne_none_iff m.entries k).symm

/-- The keys of a map after an assignment. -/
theorem GoMap.mem_keys_set {V : Type} (m : GoMap V) (k k1 : Str) (v : V) :
    k1 ∈ (m.set k v).keys ↔ k1 = k ∨ k1 ∈ m.keys := by
  rw [GoMap.mem_keys_iff, GoMap.mem_keys_iff, GoMap.get_set]
  by_cases h : k1 = k <;> simp [h]

theorem mem_keys_addServices (k : Str) (sds : List ServiceDescriptor) :
    ∀ m : GoMap (List MethodDescriptor),
      k ∈ (addServices m sds).keys
        ↔ k ∈ m.keys ∨ ∃ sd ∈ sds, sd.GetFullyQualifiedName = k := by
  induction sds with
  | nil => intro m; simp [addServices]
  | cons sd rest ih =>
    intro m
    rw [addServices, ih, GoMap.mem_keys_set]
    constructor
    · rintro ((h | h) | ⟨sd2, hm, hk⟩)
      · exact Or.inr ⟨sd, by simp, h.symm⟩
      · exact Or.inl h
      · exact Or.inr ⟨sd2, by simp [hm], hk⟩
    · rintro (h | ⟨sd2, hm, hk⟩)
      · exact Or.inl (Or.inr h)
      · rcases List.mem_cons.1 hm with e | hm2
        · exact Or.inl (Or.inl (by rw [← hk, e]))
        · exact Or.inr ⟨sd2, hm2, hk⟩

theorem mem_keys_rpcDescs_aggregateFrom (k : Str) (ds : List FileDescriptor) :
    ∀ s : spec, k ∈ (aggregateFrom s ds).rpcDescs.keys
      ↔ k ∈ s.rpcDescs.keys ∨
        ∃ f ∈ ds, ∃ sd ∈ f.GetServices, sd.GetFullyQualifiedName = k := by
  induction ds with
  | nil => intro s; simp [aggregateFrom]
  | cons f rest ih =>
    intro s
    rw [aggregateFrom, ih]
    simp only [addDescriptor, mem_keys_addServices]
    constructor
    · rintro ((h | h) | ⟨f2, hm, hx⟩)
      · exact Or.inl h
      · exact Or.inr ⟨f, by simp, h⟩
      · exact Or.inr ⟨f2, by simp [hm], hx⟩
    · rintro (h | ⟨f2, hm, hx⟩)
      · exact Or.inl (Or.inl h)
      · rcases List.mem_cons.1 hm with e | hm2
        · exact Or.inl (Or.inr (e ▸ hx))
        · exact Or.inr ⟨f2, hm2, hx⟩

theorem mem_keys_pkgNames_aggregateFrom (p : Str) (ds : List FileDescriptor) :
    ∀ s : spec, p ∈ (aggregateFrom s ds).pkgNames.keys
      ↔ p ∈ s.pkgNames.keys ∨ ∃ f ∈ ds, f.GetPackage = p := by
  induction ds with
  | nil => intro s; simp [aggregateFrom]
  | cons f rest ih =>
    intro s
    rw [aggregateFrom, ih]
    simp only [addDescriptor, GoMap.mem_keys_set]
    constructor
    · rintro ((h | h) | ⟨f2, hm, hx⟩)
      · exact Or.inr ⟨f, by simp, h.symm⟩
      · exact Or.inl h
      · exact Or.inr ⟨f2, by simp [hm], hx⟩
    · rintro (h | ⟨f2, hm, hx⟩)
      · exact Or.inl (Or.inr h)
      · rcases List.mem_cons.1 hm with e | hm2
        · exact Or.inl (Or.inl (by rw [← hx, e]))
        · exact Or.inr ⟨f2, hm2, hx⟩

theorem mem_declaredServices_iff (p : Str) (ds : List FileDescriptor)
    (sd : ServiceDescriptor) :
    sd ∈ declaredServices p ds ↔ ∃ f ∈ ds, f.GetPackage = p ∧ sd ∈ f.GetServices := by
  induction ds with
  | nil => simp [declaredServices]
  | cons f rest ih =>
    rw [declaredServices]
    by_cases h : f.GetPackage = p
    · rw [if_pos h, List.mem_append, ih]
      constructor
      · rintro (h1 | ⟨f2, hm, hx⟩)
        · exact ⟨f, by simp, h, h1⟩
        · exact ⟨f2, by simp [hm], hx⟩
      · rintro ⟨f2, hm, hp, hs⟩
        rcases List.mem_cons.1 hm with e | hm2
        · exact Or.inl (e ▸ hs)
        · exact Or.inr ⟨f2, hm2, hp, hs⟩
    · rw [if_neg h, ih]
      constructor
      · rintro ⟨f2, hm, hx⟩
        exact ⟨f2, by simp [hm], hx⟩
      · rintro ⟨f2, hm, hp, hs⟩
        rcases List.mem_cons.1 hm with e | hm2
        · exact absurd (e ▸ hp) h
        · exact ⟨f2, hm2, hp, hs⟩

/-- The services stored under a package by the aggregation. -/
theorem svcDescs_aggregate_get (p : Str) (ds : List FileDescriptor)
    (sds : List ServiceDescriptor) (h : (aggregate ds).svcDescs.get p = some sds) :
    sds = declaredServices p ds := by
  have h1 := svcDescs_aggregateFrom_getSlice p ds spec.empty
  have h2 : (aggregate ds).svcDescs.getSlice p = sds := by simp [GoMap.getSlice, h]
  have h3 : spec.empty.svcDescs.getSlice p = [] := rfl
  rw [aggregate] at h2
  rw [h2, h3] at h1
  simpa using h1

/-- A package declared by a file has the declared services stored under it. -/
theorem svcDescs_aggregate_get_of_mem (ds : List FileDescriptor) (f : FileDescriptor)
    (hf : f ∈ ds) :
    (aggregate ds).svcDescs.get f.GetPackage = some (declaredServices f.GetPackage ds) := by
  cases hg : (aggregate ds).svcDescs.get f.GetPackage with
  | none =>
    rw [aggregate, svcDescs_aggregateFrom_get_eq_none] at hg
    exact absurd rfl (hg.2 f hf)
  | some sds => rw [svcDescs_aggregate_get _ ds sds hg]

/-- C11: for the index built by the aggregation of `Parse` from a list of file
descriptors, every key `k` of `rpcDescs` is the fully-qualified name of some
service stored in `svcDescs` under a package `p` that is a key of `pkgNames`;
and every service stored under a key `p` of `svcDescs` was declared in a file
descriptor whose package is `p`. -/
theorem aggregate_keys_invariant (descriptors : List FileDescriptor) :
    (∀ k ∈ (aggregate descriptors).rpcDescs.keys,
      ∃ p sds sd, p ∈ (aggregate descriptors).pkgNames.keys ∧
        (aggregate descriptors).svcDescs.get p = some sds ∧ sd ∈ sds ∧
        sd.GetFullyQualifiedName = k) ∧
    (∀ k, k ∈ (aggregate descriptors).rpcDescs.keys
      ↔ (aggregate descriptors).rpcDescs.get k ≠ none) ∧
    (∀ p sds sd, (aggregate descriptors).svcDescs.get p = some sds → sd ∈ sds →
      ∃ f ∈ descriptors, f.GetPackage = p ∧ sd ∈ f.GetServices) := by
  refine ⟨?_, fun k => GoMap.mem_keys_iff _ k, ?_⟩
  · intro k hk
    rw [aggregate, mem_keys_rpcDescs_aggregateFrom] at hk
    rcases hk with hk | ⟨f, hf, sd, hsd, hfq⟩
    · simp [spec.empty, GoMap.empty, GoMap.keys] at hk
    · refine ⟨f.GetPackage, declaredServices f.GetPackage descriptors, sd, ?_,
        svcDescs_aggregate_get_of_mem descriptors f hf, ?_, hfq⟩
      · rw [aggregate, mem_keys_pkgNames_aggregateFrom]
        exact Or.inr ⟨f, hf, rfl⟩
      · exact (mem_declaredServices_iff _ descriptors sd).2 ⟨f, hf, rfl, hsd⟩
  · intro p sds sd hg hmem
    rw [svcDescs_aggregate_get p descriptors sds hg] at hmem
    exact (mem_declaredServices_iff p descriptors sd).1 hmem

/-- The witness of C11: the key `demo.Greeter` of the example index. -/
theorem aggregate_keys_invariant_witness :
    "demo.Greeter".toList ∈ (aggregate demoFiles).rpcDescs.keys ∧
      (aggregate demoFiles).rpcDescs.keys
        = ["demo.Greeter".toList, "other.Echo".toList, "demo.Admin".toList] ∧
      (aggregate demoFiles).pkgNames.keys = ["other".toList, "demo".toList] ∧
      ∃ p sds sd, p ∈ (aggregate demoFiles).pkgNames.keys ∧
        (aggregate demoFiles).svcDescs.get p = some sds ∧ sd ∈ sds ∧
        sd.GetFullyQualifiedName = "demo.Greeter".toList :=
  ⟨by decide, by decide, by decide,
    (aggregate_keys_invariant demoFiles).1 "demo.Greeter".toList (by decide)⟩

end GrpcCli
